import Mathlib

/-!
Verification of the sprut modular application kernel.

The definitions below are a shallow embedding of the TypeScript sources:
`src/core/Module.ts` (lifecycle state machine), `src/core/ModuleManager.ts`
(registry, topological scheduler, recovery supervisor, module loader),
`src/core/ModuleMemoryInspector.ts` (snapshot ring, leak analysis) and
`src/core/ModuleUpdater.ts` (version comparison).  Machine numbers are
modelled as `Nat`/`Int`/`Rat`; fallible code returns `Except`.
-/

namespace Sprut

/-! ## Module states (src/types/index.ts, `ModuleState`) -/

/-- The 10-value state enum of `src/types/index.ts`.  `WARNING` and `DEBUG`
exist only for logging colour and are never assigned as lifecycle states. -/
inductive ModuleState where
  | UNINITIALIZED
  | INITIALIZING
  | INITIALIZED
  | STARTING
  | RUNNING
  | STOPPING
  | STOPPED
  | ERROR
  | WARNING
  | DEBUG
deriving DecidableEq, Repr

/-! ## Version comparison (src/core/ModuleUpdater.ts, `compareVersions`) -/

/-- Split a character list at every `'.'`, the way
`v.split(".")` splits a version string. -/
def splitDots : List Char → List (List Char)
  | [] => [[]]
  | c :: cs =>
    if c = '.' then [] :: splitDots cs
    else
      match splitDots cs with
      | [] => [[c]]
      | p :: ps => (c :: p) :: ps

/-- Decimal reading of one version component, the value `Number(part)` takes
on a decimal numeral. -/
def parseDec (cs : List Char) : Nat :=
  cs.foldl (fun acc c => acc * 10 + (c.toNat - '0'.toNat)) 0

/-- Whether every dot-separated component of `v` is a non-empty decimal
numeral (the domain on which `Number` returns the decimal value). -/
def isNumeralVersion (v : String) : Bool :=
  (splitDots v.data).all fun cs => !cs.isEmpty && cs.all (·.isDigit)

/-- The numeric parts of a version string: `v1.split(".").map(Number)`. -/
def versionParts (v : String) : List Nat :=
  (splitDots v.data).map parseDec

/-- The comparison loop of `compareVersions`: position `i` runs while `fuel`
iterations remain, each position reading `parts[i]`, zero-padded past the
end (`i < parts.length ? parts[i] : 0`). -/
def comparePartsFrom (p1 p2 : List Nat) : Nat → Nat → Int
  | 0, _ => 0
  | fuel + 1, i =>
    if p1.getD i 0 > p2.getD i 0 then 1
    else if p1.getD i 0 < p2.getD i 0 then -1
    else comparePartsFrom p1 p2 fuel (i + 1)

/-- `compareVersions(v1, v2)` of `src/core/ModuleUpdater.ts` (lines 208-221):
split both versions on dots, convert the parts to numbers and compare
component-wise over `Math.max(parts1.length, parts2.length)` positions with
zero padding; `1` if `v1 > v2`, `-1` if `v1 < v2`, `0` if equal. -/
def compareVersions (v1 v2 : String) : Int :=
  comparePartsFrom (versionParts v1) (versionParts v2)
    (max (versionParts v1).length (versionParts v2).length) 0

/-! ## Memory snapshot ring (src/core/ModuleMemoryInspector.ts) -/

/-- One per-module memory snapshot (`ModuleMemorySnapshot`). -/
structure MemorySnapshot where
  timestamp : Nat
  heapUsed : Nat
  heapTotal : Nat
  external : Nat
  arrayBuffers : Nat
  references : Nat
deriving DecidableEq, Repr

/-- The ring update of `takeSnapshot` (lines 204-216) for one module: push
the new snapshot, and when the length exceeds `maxSnapshots`, `shift()` the
oldest (first) entry off. -/
def pushSnapshotRing (maxSnapshots : Nat) (ring : List MemorySnapshot)
    (s : MemorySnapshot) : List MemorySnapshot :=
  if maxSnapshots < (ring ++ [s]).length then (ring ++ [s]).tail else ring ++ [s]

/-- The ring a module holds after a sequence of `takeSnapshot` calls,
starting from no snapshots. -/
def ringAfter (maxSnapshots : Nat) (snaps : List MemorySnapshot) :
    List MemorySnapshot :=
  snaps.foldl (pushSnapshotRing maxSnapshots) []

/-! ## Module lifecycle (src/core/Module.ts) -/

/-- Outcome of a concrete module hook (`onInitialize` / `onStart` /
`onStop`): the overridden method either resolves or throws a message. -/
inductive HookResult where
  | ok
  | fail (msg : String)
deriving DecidableEq, Repr

/-- The runtime fields of `Module` that the lifecycle methods touch:
`_state` and `_error` (the last error). -/
structure ModuleRT where
  state : ModuleState
  lastError : Option String
deriving DecidableEq, Repr

/-- Which public operation performed a transition; `restart()` delegates to
`stop()` and `start()`, so its transitions are recorded under those. -/
inductive OpKind where
  | initOp
  | startOp
  | stopOp
  | resetOp
deriving DecidableEq, Repr

/-- One emitted `stateChange(newState, previousState)` event, tagged with
the operation that performed it. -/
structure Transition where
  op : OpKind
  src : ModuleState
  dst : ModuleState
deriving DecidableEq, Repr

/-- `setState` (Module.ts lines 536-544): assign the new state and emit a
`stateChange` event only when the state actually changed. -/
def setStateM (op : OpKind) (m : ModuleRT) (s : ModuleState) :
    ModuleRT × List Transition :=
  if m.state = s then ({ m with state := s }, [])
  else ({ m with state := s }, [⟨op, m.state, s⟩])

/-- `handleError` (Module.ts lines 552-567): record `_error` and transition
to ERROR. -/
def handleErrorM (op : OpKind) (m : ModuleRT) (msg : String) :
    ModuleRT × List Transition :=
  setStateM op { m with lastError := some msg } ModuleState.ERROR

/-- `initialize()` (Module.ts lines 379-411): warn and return unless the
state is UNINITIALIZED; otherwise go to INITIALIZING, run `onInitialize`,
then INITIALIZED on success, or `handleError` and rethrow on failure.
The boolean records whether the call threw. -/
def initializeModule (m : ModuleRT) (onInit : HookResult) :
    ModuleRT × List Transition × Bool :=
  if m.state ≠ ModuleState.UNINITIALIZED then (m, [], false)
  else
    match setStateM .initOp m ModuleState.INITIALIZING with
    | (m1, t1) =>
      match onInit with
      | .ok =>
        match setStateM .initOp m1 ModuleState.INITIALIZED with
        | (m2, t2) => (m2, t1 ++ t2, false)
      | .fail msg =>
        match handleErrorM .initOp m1 msg with
        | (m2, t2) => (m2, t1 ++ t2, true)

/-- `start()` (Module.ts lines 426-461): warn and return unless the state is
INITIALIZED or STOPPED; otherwise STARTING, run `onStart`, then RUNNING on
success, or `handleError` and rethrow on failure. -/
def startModule (m : ModuleRT) (onStart : HookResult) :
    ModuleRT × List Transition × Bool :=
  if m.state ≠ ModuleState.INITIALIZED ∧ m.state ≠ ModuleState.STOPPED then
    (m, [], false)
  else
    match setStateM .startOp m ModuleState.STARTING with
    | (m1, t1) =>
      match onStart with
      | .ok =>
        match setStateM .startOp m1 ModuleState.RUNNING with
        | (m2, t2) => (m2, t1 ++ t2, false)
      | .fail msg =>
        match handleErrorM .startOp m1 msg with
        | (m2, t2) => (m2, t1 ++ t2, true)

/-- `stop()` (Module.ts lines 469-500): warn and return unless the state is
RUNNING; otherwise STOPPING, run `onStop`, then STOPPED on success, or
`handleError` and rethrow on failure. -/
def stopModule (m : ModuleRT) (onStop : HookResult) :
    ModuleRT × List Transition × Bool :=
  if m.state ≠ ModuleState.RUNNING then (m, [], false)
  else
    match setStateM .stopOp m ModuleState.STOPPING with
    | (m1, t1) =>
      match onStop with
      | .ok =>
        match setStateM .stopOp m1 ModuleState.STOPPED with
        | (m2, t2) => (m2, t1 ++ t2, false)
      | .fail msg =>
        match handleErrorM .stopOp m1 msg with
        | (m2, t2) => (m2, t1 ++ t2, true)

/-- `restart()` (Module.ts lines 506-511): `await stop()` then
`await start()`; a throw from `stop()` propagates and skips the start. -/
def restartModule (m : ModuleRT) (onStop onStart : HookResult) :
    ModuleRT × List Transition × Bool :=
  match stopModule m onStop with
  | (m1, t1, true) => (m1, t1, true)
  | (m1, t1, false) =>
    match startModule m1 onStart with
    | (m2, t2, thr) => (m2, t1 ++ t2, thr)

/-- `reset()` (Module.ts lines 575-579): clear `_error` and force the state
to UNINITIALIZED, with no check of the current state. -/
def resetModule (m : ModuleRT) : ModuleRT × List Transition × Bool :=
  match setStateM .resetOp { m with lastError := none } ModuleState.UNINITIALIZED with
  | (m1, t1) => (m1, t1, false)

/-- One invocation of a public lifecycle method, with the outcomes of the
hooks it runs. -/
inductive LifecycleCall where
  | callInit (r : HookResult)
  | callStart (r : HookResult)
  | callStop (r : HookResult)
  | callRestart (rStop rStart : HookResult)
  | callReset
deriving DecidableEq, Repr

/-- Dispatch one lifecycle call. -/
def applyCall (m : ModuleRT) : LifecycleCall → ModuleRT × List Transition × Bool
  | .callInit r => initializeModule m r
  | .callStart r => startModule m r
  | .callStop r => stopModule m r
  | .callRestart rStop rStart => restartModule m rStop rStart
  | .callReset => resetModule m

/-- Run a sequence of lifecycle calls, collecting every emitted transition
(throws are caught by the caller between calls). -/
def runCalls (m : ModuleRT) : List LifecycleCall → ModuleRT × List Transition
  | [] => (m, [])
  | c :: cs =>
    match applyCall m c with
    | (m1, t1, _) =>
      match runCalls m1 cs with
      | (m2, t2) => (m2, t1 ++ t2)

/-- A freshly constructed module: UNINITIALIZED, no error. -/
def freshModule : ModuleRT :=
  ⟨ModuleState.UNINITIALIZED, none⟩

/-- The legal-transition table of the spec (section 3, "Legal
transitions"). -/
def legalTransition : ModuleState → ModuleState → Bool
  | .UNINITIALIZED, .INITIALIZING => true
  | .INITIALIZING, .INITIALIZED => true
  | .INITIALIZING, .ERROR => true
  | .INITIALIZED, .STARTING => true
  | .STARTING, .RUNNING => true
  | .STARTING, .ERROR => true
  | .RUNNING, .STOPPING => true
  | .STOPPING, .STOPPED => true
  | .STOPPING, .ERROR => true
  | .STOPPED, .STARTING => true
  | .ERROR, .UNINITIALIZED => true
  | _, _ => false

/-- The claimed per-transition property: the transition is in the legal
table, and a reset transition starts from ERROR. -/
def claimedTransitionOk (t : Transition) : Bool :=
  legalTransition t.src t.dst &&
    (t.op ≠ OpKind.resetOp || decide (t.src = ModuleState.ERROR))

/-- The amended per-transition property: non-reset transitions follow the
legal table; a reset transition may start anywhere but always targets
UNINITIALIZED. -/
def amendedTransitionOk (t : Transition) : Bool :=
  if t.op = OpKind.resetOp then decide (t.dst = ModuleState.UNINITIALIZED)
  else legalTransition t.src t.dst

/-! ## Recovery supervisor (src/core/ModuleManager.ts) -/

/-- The `recovery` options resolved in the ModuleManager constructor
(lines 160-164): `enabled ?? false`, `maxAttempts ?? 3`, `delayMs ?? 5000`. -/
structure RecoveryOptions where
  enabled : Bool
  maxAttempts : Nat
  delayMs : Nat
deriving DecidableEq, Repr

/-- The events the supervisor reacts to: a `moduleError(err, moduleName,
operation)` reaching the manager, and the outcome of a previously scheduled
recovery callback (the `setTimeout` body of `attemptModuleRecovery`, or
`recoverModule`): success deletes the per-module counter. -/
inductive RecoveryEvent where
  | moduleError (moduleName : String) (operation : String)
  | recoveryOutcome (moduleName : String) (success : Bool)
deriving DecidableEq, Repr

/-- Supervisor state: the `recoveryAttempts` map and the log of scheduled
recoveries (module names, in scheduling order). -/
structure SupervisorState where
  recoveryAttempts : List (String × Nat)
  scheduled : List String
deriving DecidableEq, Repr

/-- `this.recoveryAttempts.get(moduleName) || 0`: the value under the first
matching key, `0` when the key is absent. -/
def lookupAttempts : List (String × Nat) → String → Nat
  | [], _ => 0
  | p :: ps, n => if p.1 = n then p.2 else lookupAttempts ps n

/-- `Map.set`: replace the value under an existing key, else append. -/
def setAttempts : List (String × Nat) → String → Nat → List (String × Nat)
  | [], n, v => [(n, v)]
  | p :: ps, n, v => if p.1 = n then (n, v) :: ps else p :: setAttempts ps n v

/-- `Map.delete`: drop the entries with the key. -/
def deleteAttempts (attempts : List (String × Nat)) (n : String) :
    List (String × Nat) :=
  attempts.filter (fun p => decide (p.1 ≠ n))

/-- `attemptModuleRecovery` (lines 327-367): read the counter; when it has
reached `maxAttempts`, warn and return without scheduling; otherwise
increment the counter and schedule a delayed `recoverModule`. -/
def attemptModuleRecovery (opts : RecoveryOptions) (st : SupervisorState)
    (moduleName : String) : SupervisorState :=
  if lookupAttempts st.recoveryAttempts moduleName ≥ opts.maxAttempts then st
  else
    { recoveryAttempts := setAttempts st.recoveryAttempts moduleName
        (lookupAttempts st.recoveryAttempts moduleName + 1),
      scheduled := st.scheduled ++ [moduleName] }

/-- The `moduleError` listener installed in the constructor (lines 184-195):
recovery is attempted only when `recovery.enabled`, the module name is
truthy, and the operation is not `"initialization"`. -/
def handleModuleError (opts : RecoveryOptions) (st : SupervisorState)
    (moduleName operation : String) : SupervisorState :=
  if opts.enabled ∧ moduleName ≠ "" ∧ operation ≠ "initialization" then
    attemptModuleRecovery opts st moduleName
  else st

/-- Outcome of a scheduled recovery: on success `recoveryAttempts.delete`
runs (lines 360 and 1491); a failed recovery leaves the counter as is. -/
def handleRecoveryOutcome (st : SupervisorState) (moduleName : String)
    (success : Bool) : SupervisorState :=
  if success then
    { st with recoveryAttempts := deleteAttempts st.recoveryAttempts moduleName }
  else st

/-- One supervisor step. -/
def supervisorStep (opts : RecoveryOptions) (st : SupervisorState) :
    RecoveryEvent → SupervisorState
  | .moduleError n op => handleModuleError opts st n op
  | .recoveryOutcome n s => handleRecoveryOutcome st n s

/-- The supervisor state after a sequence of events, from the fresh manager
state (empty counters, nothing scheduled). -/
def runSupervisor (opts : RecoveryOptions) (evs : List RecoveryEvent) :
    SupervisorState :=
  evs.foldl (supervisorStep opts) ⟨[], []⟩

/-- Whether an event is a `moduleError` for module `n` whose operation is
not `"initialization"` — the only kind of event the spec allows to schedule
a recovery of `n`. -/
def isQualifyingError (n : String) : RecoveryEvent → Bool
  | .moduleError n' op => decide (n' = n) && decide (op ≠ "initialization")
  | .recoveryOutcome _ _ => false

/-- How many events of `evs` could schedule a recovery of module `n`. -/
def qualifyingErrors (n : String) (evs : List RecoveryEvent) : Nat :=
  (evs.filter (isQualifyingError n)).length

/-- Whether an event is a successful recovery of module `n`. -/
def isSuccessFor (n : String) : RecoveryEvent → Bool
  | .recoveryOutcome n' true => decide (n' = n)
  | _ => false

/-- Whether `evs` contains a successful recovery of module `n`. -/
def hasSuccessFor (n : String) (evs : List RecoveryEvent) : Bool :=
  evs.any (isSuccessFor n)

/-- How many recoveries of module `n` a scheduling log records. -/
def countSched (n : String) (l : List String) : Nat :=
  (l.filter (fun x => decide (x = n))).length

/-! ## Module definitions, registration and loading
(src/core/ModuleManager.ts) -/

/-- The metadata of a module instance that the Manager reads: accessor
defaults from Module.ts lines 321-363. -/
structure ModuleDef where
  name : String
  dependencies : List String
  priority : Int
  disabled : Bool
deriving DecidableEq, Repr

/-- A registry entry: the module together with the manager-owned `error`
and `stateChange` listeners installed on it by `registerModule`. -/
structure RegEntry where
  module : ModuleDef
  errorListener : Bool
  stateChangeListener : Bool
deriving DecidableEq, Repr

/-- `getModule(name)` (ModuleManager.ts lines 1056-1058): `Map.get`. -/
def getRegModule (registry : List RegEntry) (n : String) : Option RegEntry :=
  registry.find? (fun e => e.module.name = n)

/-- `registerModule` (ModuleManager.ts lines 599-640): a duplicate name
throws; a disabled module returns silently with nothing installed and
nothing added; otherwise the `error` and `stateChange` listeners are
installed and the module is added to the registry. -/
def registerModule (registry : List RegEntry) (m : ModuleDef) :
    Except String (List RegEntry) :=
  if registry.any (fun e => e.module.name = m.name) then
    Except.error ("Module " ++ m.name ++ " is already registered")
  else if m.disabled then Except.ok registry
  else Except.ok (registry ++ [⟨m, true, true⟩])

/-- What dynamically importing a module directory produces: an import
failure, a default export that does not extend Module, or a module
instance (with the `disabled` flag its config document carries). -/
inductive ImportResult where
  | importError (msg : String)
  | notAModuleSubclass
  | moduleInstance (m : ModuleDef) (configDisabled : Bool)
deriving DecidableEq, Repr

/-- Result classification of one directory load. -/
inductive LoadOutcome where
  | loaded
  | disabledSkip
deriving DecidableEq, Repr

/-- `loadModuleFromPath` (lines 542-592): import errors and non-Module
default exports throw; a module disabled by metadata or config is skipped
as disabled; otherwise it is registered (a registration failure
propagates). -/
def loadModuleFromPath (registry : List RegEntry) (dir : String)
    (imported : ImportResult) : Except String (List RegEntry × LoadOutcome) :=
  match imported with
  | .importError msg => Except.error msg
  | .notAModuleSubclass =>
    Except.error ("Invalid module in " ++ dir ++ ": Not a Module subclass")
  | .moduleInstance m configDisabled =>
    if m.disabled || configDisabled then Except.ok (registry, LoadOutcome.disabledSkip)
    else
      match registerModule registry m with
      | .error e => Except.error e
      | .ok reg2 => Except.ok (reg2, LoadOutcome.loaded)

/-- The counters the `loadModules` batch loop accumulates (lines 409-459),
together with the registry (the Manager's `this.modules`, which keeps every
successful registration even when a sibling directory fails) and the first
error thrown by a per-directory task. -/
structure LoadState where
  registry : List RegEntry
  loadedCount : Nat
  disabledCount : Nat
  errorCount : Nat
  firstError : Option String
deriving DecidableEq, Repr

/-- One directory of the `loadModules` loop: count the outcome; the catch
at lines 449-457 counts a failure and rethrows it. -/
def loadModulesStep (st : LoadState) (dir : String × ImportResult) : LoadState :=
  match loadModuleFromPath st.registry dir.1 dir.2 with
  | .ok (reg2, .loaded) =>
    { st with registry := reg2, loadedCount := st.loadedCount + 1 }
  | .ok (reg2, .disabledSkip) =>
    { st with registry := reg2, disabledCount := st.disabledCount + 1 }
  | .error e =>
    { st with errorCount := st.errorCount + 1,
              firstError := match st.firstError with
                | some e0 => some e0
                | none => some e }

/-- `loadModules` (lines 373-479) over the discovered module directories.
Every directory's task runs to completion (they are independent promises),
so every loadable module is registered and every failure is counted; but a
per-directory throw is rethrown by the task's catch (line 456), rejects the
`Promise.all`, and the outer catch (lines 471-478) rethrows it out of
`loadModules`, skipping the tally log.  The pair is the final accumulated
state (the Manager's surviving mutations) and the method's own outcome. -/
def loadModules (registry : List RegEntry) (dirs : List (String × ImportResult)) :
    LoadState × Except String Unit :=
  match dirs.foldl loadModulesStep ⟨registry, 0, 0, 0, none⟩ with
  | st =>
    (st, if st.errorCount > 0 then Except.error (st.firstError.getD "") else Except.ok ())

/-! ## Permission checks (src/core/Module.ts, checkPermission) -/

/-- A registered module as `checkPermission` sees it: its name and the
`checkModulePermission` function it exposes, when it is one. -/
structure AuthView where
  name : String
  checkModulePermission : Option (String → String → String → Bool)

/-- `getModule("auth")` against a list of registered module views. -/
def getAuthView (registry : List AuthView) (n : String) : Option AuthView :=
  registry.find? (fun m => m.name = n)

/-- The local-permission test of lines 220-223: the `_permissions` map has
the resource and the action is in its set. -/
def localGranted (permissions : List (String × List String))
    (action resource : String) : Bool :=
  match permissions.find? (fun p => p.1 = resource) with
  | some p => p.2.contains action
  | none => false

/-- `checkPermission(action, resource)` (Module.ts lines 215-242): a local
grant wins; otherwise, with a manager back-reference whose registry has an
`auth` module exposing a `checkModulePermission` function, that function's
verdict on `(this.name, action, resource)`; otherwise `true`. -/
def checkPermission (permissions : List (String × List String))
    (manager : Option (List AuthView)) (selfName action resource : String) : Bool :=
  if localGranted permissions action resource then true
  else
    match manager with
    | some registry =>
      match getAuthView registry "auth" with
      | some authModule =>
        match authModule.checkModulePermission with
        | some f => f selfName action resource
        | none => true
      | none => true
    | none => true

/-! ## Memory growth analysis (src/core/ModuleMemoryInspector.ts) -/

/-- The growth-rate thresholds in MB per hour (defaults `{low := 5,
medium := 20, high := 50}`). -/
structure Thresholds where
  low : ℚ
  medium : ℚ
  high : ℚ
deriving DecidableEq, Repr

/-- Severity of a detected leak. -/
inductive Severity where
  | low
  | medium
  | high
deriving DecidableEq, Repr

/-- `analyzeMemoryUsage` (lines 262-311) on one module's snapshot list:
with fewer than 2 snapshots, or elapsed time below 0.01 h, no finding;
otherwise `timeElapsedHours = (newest.timestamp − oldest.timestamp)
/1000/60/60`, `growthRate = ((newest.heapUsed − oldest.heapUsed)/1024/1024)
/ timeElapsedHours`, classified high / medium / low against the thresholds,
and below `low` no finding. -/
def analyzeModuleSnapshots (thresholds : Thresholds)
    (snapshots : List MemorySnapshot) : Option (Severity × ℚ) :=
  if snapshots.length < 2 then none
  else
    match snapshots.head?, snapshots.getLast? with
    | some oldest, some newest =>
      if ((newest.timestamp : ℚ) - (oldest.timestamp : ℚ)) / 1000 / 60 / 60
          < 1 / 100 then none
      else
        if (((newest.heapUsed : ℚ) - (oldest.heapUsed : ℚ)) / 1024 / 1024) /
              (((newest.timestamp : ℚ) - (oldest.timestamp : ℚ)) / 1000 / 60 / 60)
            ≥ thresholds.high then
          some (Severity.high,
            (((newest.heapUsed : ℚ) - (oldest.heapUsed : ℚ)) / 1024 / 1024) /
              (((newest.timestamp : ℚ) - (oldest.timestamp : ℚ)) / 1000 / 60 / 60))
        else if (((newest.heapUsed : ℚ) - (oldest.heapUsed : ℚ)) / 1024 / 1024) /
              (((newest.timestamp : ℚ) - (oldest.timestamp : ℚ)) / 1000 / 60 / 60)
            ≥ thresholds.medium then
          some (Severity.medium,
            (((newest.heapUsed : ℚ) - (oldest.heapUsed : ℚ)) / 1024 / 1024) /
              (((newest.timestamp : ℚ) - (oldest.timestamp : ℚ)) / 1000 / 60 / 60))
        else if (((newest.heapUsed : ℚ) - (oldest.heapUsed : ℚ)) / 1024 / 1024) /
              (((newest.timestamp : ℚ) - (oldest.timestamp : ℚ)) / 1000 / 60 / 60)
            ≥ thresholds.low then
          some (Severity.low,
            (((newest.heapUsed : ℚ) - (oldest.heapUsed : ℚ)) / 1024 / 1024) /
              (((newest.timestamp : ℚ) - (oldest.timestamp : ℚ)) / 1000 / 60 / 60))
        else none
    | _, _ => none

/-- The full `analyzeMemoryUsage` pass over the snapshot map, in map
order. -/
def analyzeMemoryUsage (thresholds : Thresholds)
    (snaps : List (String × List MemorySnapshot)) : List (String × Severity × ℚ) :=
  snaps.filterMap fun p =>
    (analyzeModuleSnapshots thresholds p.2).map fun r => (p.1, r.1, r.2)

/-- Elapsed time between two snapshots in hours, as the claim states it. -/
def elapsedHoursOf (oldest newest : MemorySnapshot) : ℚ :=
  ((newest.timestamp : ℚ) - (oldest.timestamp : ℚ)) / 3600000

/-- Growth rate in MB per hour, as the claim states it:
`((newest.heapUsed − oldest.heapUsed) / 2^20) / elapsedHours`. -/
def growthRateOf (oldest newest : MemorySnapshot) : ℚ :=
  (((newest.heapUsed : ℚ) - (oldest.heapUsed : ℚ)) / 2 ^ 20) /
    elapsedHoursOf oldest newest

/-- The claim's severity mapping of a growth rate. -/
def severityMap (thresholds : Thresholds) (gr : ℚ) : Option (Severity × ℚ) :=
  if gr ≥ thresholds.high then some (Severity.high, gr)
  else if gr ≥ thresholds.medium then some (Severity.medium, gr)
  else if gr ≥ thresholds.low then some (Severity.low, gr)
  else none

/-! ## Topological ordering (src/core/ModuleManager.ts,
sortModulesByDependencies) -/

/-- The errors the sort can produce.  `fuelExhausted` is an artefact of the
embedding's explicit recursion bound; it is proved unreachable for the
bound `sortModulesByDependencies` supplies. -/
inductive SortError where
  | circular (path : List String)
  | notFound (name : String)
  | fuelExhausted
deriving DecidableEq, Repr

/-- The thrown message: the cycle error joins the `visiting` path with
`" -> "` (line 1014-1015); the lookup error is line 1021. -/
def SortError.message : SortError → String
  | .circular path => "Circular dependency detected: " ++ String.intercalate " -> " path
  | .notFound n => "Module " ++ n ++ " not found"
  | .fuelExhausted => "recursion bound exceeded"

/-- The mutable state of the DFS (lines 1007-1009): the `visited` set, the
`visiting` set (both insertion-ordered, as JS `Set` is) and the output
list. -/
structure SortState where
  visited : List String
  visiting : List String
  sorted : List ModuleDef
deriving DecidableEq, Repr

/-- The dependency loop of `visit` (lines 1024-1028): visit (with the
recursive visit function `visitF`, one fuel level down) each dependency
that is registered, silently skipping the rest. -/
def visitDeps (reg : List ModuleDef)
    (visitF : String → SortState → Except SortError SortState) :
    List String → SortState → Except SortError SortState
  | [], st => Except.ok st
  | d :: ds, st =>
    if reg.any (fun m => m.name = d) then
      match visitF d st with
      | Except.error e => Except.error e
      | Except.ok st' => visitDeps reg visitF ds st'
    else visitDeps reg visitF ds st

/-- One `visit(moduleName)` call of the DFS (lines 1011-1033): return when
already visited; throw a circular-dependency error naming
`visiting ++ [moduleName]` when the name is being visited; otherwise add
the name to `visiting`, look the module up, visit its registered
dependencies in order, then remove the name from `visiting`, add it to
`visited` and push the module onto `sorted`. -/
def visit (reg : List ModuleDef) : Nat → String → SortState →
    Except SortError SortState
  | 0, _, _ => Except.error SortError.fuelExhausted
  | fuel + 1, n, st =>
    if n ∈ st.visited then Except.ok st
    else if n ∈ st.visiting then
      Except.error (SortError.circular (st.visiting ++ [n]))
    else
      match reg.find? (fun m => m.name = n) with
      | none => Except.error (SortError.notFound n)
      | some m =>
        match visitDeps reg (visit reg fuel) m.dependencies
            { st with visiting := st.visiting ++ [n] } with
        | Except.error e => Except.error e
        | Except.ok st2 =>
          Except.ok { visited := st2.visited ++ [n],
                      visiting := st2.visiting.erase n,
                      sorted := st2.sorted ++ [m] }

/-- Stable insertion into a list sorted by descending priority: the new
module goes before the first entry whose priority does not exceed it, so
earlier-registered modules stay first among equal priorities. -/
def insertByPriority (m : ModuleDef) : List ModuleDef → List ModuleDef
  | [] => [m]
  | x :: xs =>
    if x.priority ≤ m.priority then m :: x :: xs
    else x :: insertByPriority m xs

/-- The priority seeding (lines 1036-1038): a stable sort of the registry
by descending priority (the comparator `(b.priority || 0) − (a.priority ||
0)` under JavaScript's stable `Array.prototype.sort`); any stable sort of
the same total preorder yields the same sequence. -/
def modulesByPriority : List ModuleDef → List ModuleDef
  | [] => []
  | m :: ms => insertByPriority m (modulesByPriority ms)

/-- The top-level loop (lines 1040-1044): visit every not-yet-visited
module name, in priority order, threading the DFS state.  A registry of
`k` modules can hold at most `k` distinct names, so `k + 1` recursion
fuel is always enough. -/
def visitAll (reg : List ModuleDef) :
    List ModuleDef → SortState → Except SortError SortState
  | [], st => Except.ok st
  | m :: ms, st =>
    if m.name ∈ st.visited then visitAll reg ms st
    else
      match visit reg (reg.length + 1) m.name st with
      | Except.error e => Except.error e
      | Except.ok st' => visitAll reg ms st'

/-- `sortModulesByDependencies` (lines 1006-1047). -/
def sortModulesByDependencies (reg : List ModuleDef) :
    Except SortError (List ModuleDef) :=
  match visitAll reg (modulesByPriority reg) ⟨[], [], []⟩ with
  | Except.error e => Except.error e
  | Except.ok st => Except.ok st.sorted

/-- The processing order of `initializeModules` (lines 695-797): nothing
when already initialized; otherwise the sorted order, obtained outside any
catch so a sort error propagates to the caller. -/
def initializeOrder (initialized : Bool) (reg : List ModuleDef) :
    Except SortError (List String) :=
  if initialized then Except.ok []
  else
    match sortModulesByDependencies reg with
    | Except.error e => Except.error e
    | Except.ok sorted => Except.ok (sorted.map (fun m => m.name))

/-- The processing order of `startModules` (lines 803-905): the sorted
order. -/
def startOrder (reg : List ModuleDef) : Except SortError (List String) :=
  match sortModulesByDependencies reg with
  | Except.error e => Except.error e
  | Except.ok sorted => Except.ok (sorted.map (fun m => m.name))

/-- The processing order of `stopModules` (lines 911-999): the reversed
sorted order (line 923). -/
def stopOrder (reg : List ModuleDef) : Except SortError (List String) :=
  match sortModulesByDependencies reg with
  | Except.error e => Except.error e
  | Except.ok sorted => Except.ok ((sorted.map (fun m => m.name)).reverse)

/-- The order `l` respects the registered dependency edges: wherever a
module sits in `l`, each of its registered dependencies already occurs
strictly earlier (so for every edge "A depends on B", B comes strictly
before A, and in `l.reverse` strictly after). -/
def respectsDeps (reg : List ModuleDef) (l : List ModuleDef) : Prop :=
  ∀ pre m post, l = pre ++ m :: post →
    ∀ d ∈ m.dependencies, (∃ mm ∈ reg, mm.name = d) →
      d ∈ pre.map (fun x => x.name)

/-- The state invariant of the DFS: `visited` mirrors the names of `sorted`
(no name twice), every sorted module is registered, and `sorted` respects
the registered dependency edges. -/
def SortInvariant (reg : List ModuleDef) (st : SortState) : Prop :=
  st.visited = st.sorted.map (fun m => m.name) ∧
  st.visited.Nodup ∧
  (∀ m ∈ st.sorted, m ∈ reg) ∧
  respectsDeps reg st.sorted

/-- A dependency edge among registered modules: a registered module named
`a` declares the registered name `b` among its dependencies. -/
def depEdge (reg : List ModuleDef) (a b : String) : Prop :=
  ∃ m ∈ reg, m.name = a ∧ b ∈ m.dependencies ∧ ∃ mb ∈ reg, mb.name = b

/-- The registered dependency graph contains a cycle: a nonempty chain of
edges from `a` back to `a`. -/
def hasDepCycle (reg : List ModuleDef) : Prop :=
  ∃ (a : String) (rest : List String), rest ≠ [] ∧
    List.Chain (depEdge reg) a rest ∧ rest.getLast? = some a

/-! ## Theorems: version comparison -/

theorem comparePartsFrom_neg (p1 p2 : List Nat) :
    ∀ fuel i, comparePartsFrom p2 p1 fuel i = - comparePartsFrom p1 p2 fuel i := by
  intro fuel
  induction fuel with
  | zero => intro i; rfl
  | succ n ih =>
    intro i
    simp only [comparePartsFrom]
    rcases Nat.lt_trichotomy (p1.getD i 0) (p2.getD i 0) with h | h | h
    · rw [if_pos h, if_neg (Nat.lt_asymm h), if_pos h]
      decide
    · rw [if_neg (by omega), if_neg (by omega), if_neg (by omega), if_neg (by omega)]
      exact ih (i + 1)
    · rw [if_neg (Nat.lt_asymm h), if_pos h, if_pos h]

theorem comparePartsFrom_eq_zero_iff (p1 p2 : List Nat) :
    ∀ fuel i, comparePartsFrom p1 p2 fuel i = 0 ↔
      ∀ j, i ≤ j → j < i + fuel → p1.getD j 0 = p2.getD j 0 := by
  intro fuel
  induction fuel with
  | zero =>
    intro i
    constructor
    · intro _ j h1 h2
      omega
    · intro _
      rfl
  | succ n ih =>
    intro i
    simp only [comparePartsFrom]
    rcases Nat.lt_trichotomy (p1.getD i 0) (p2.getD i 0) with h | h | h
    · rw [if_neg (Nat.lt_asymm h), if_pos h]
      constructor
      · intro habs
        exact absurd habs (by decide)
      · intro hall
        exact absurd (hall i le_rfl (by omega)) (by omega)
    · rw [if_neg (by omega), if_neg (by omega), ih (i + 1)]
      constructor
      · intro hall j h1 h2
        rcases Nat.eq_or_lt_of_le h1 with heq | hlt
        · rw [← heq]
          exact h
        · exact hall j hlt (by omega)
      · intro hall j h1 h2
        exact hall j (by omega) (by omega)
    · rw [if_pos h]
      constructor
      · intro habs
        exact absurd habs (by decide)
      · intro hall
        exact absurd (hall i le_rfl (by omega)) (by omega)

theorem comparePartsFrom_past (p1 p2 : List Nat) :
    ∀ fuel i, p1.length ≤ i → p2.length ≤ i → comparePartsFrom p1 p2 fuel i = 0 := by
  intro fuel
  induction fuel with
  | zero =>
    intro i _ _
    rfl
  | succ n ih =>
    intro i h1 h2
    simp only [comparePartsFrom]
    rw [List.getD_eq_default p1 0 h1, List.getD_eq_default p2 0 h2]
    simp only [Nat.lt_irrefl, if_false]
    exact ih (i + 1) (by omega) (by omega)

theorem comparePartsFrom_add (p1 p2 : List Nat) :
    ∀ fuel i k, p1.length ≤ i + fuel → p2.length ≤ i + fuel →
      comparePartsFrom p1 p2 (fuel + k) i = comparePartsFrom p1 p2 fuel i := by
  intro fuel
  induction fuel with
  | zero =>
    intro i k h1 h2
    rw [Nat.zero_add]
    exact comparePartsFrom_past p1 p2 k i (by omega) (by omega)
  | succ n ih =>
    intro i k h1 h2
    have hsum : n + 1 + k = (n + k) + 1 := by omega
    rw [hsum]
    simp only [comparePartsFrom]
    rcases Nat.lt_trichotomy (p1.getD i 0) (p2.getD i 0) with h | h | h
    · rw [if_neg (Nat.lt_asymm h), if_pos h, if_neg (Nat.lt_asymm h), if_pos h]
    · rw [if_neg (by omega), if_neg (by omega), if_neg (by omega), if_neg (by omega)]
      exact ih (i + 1) k (by omega) (by omega)
    · rw [if_pos h, if_pos h]

theorem comparePartsFrom_trans (p1 p2 p3 : List Nat) :
    ∀ fuel i, comparePartsFrom p1 p2 fuel i = 1 → comparePartsFrom p2 p3 fuel i = 1 →
      comparePartsFrom p1 p3 fuel i = 1 := by
  intro fuel
  induction fuel with
  | zero =>
    intro i h _
    simp only [comparePartsFrom] at h
    omega
  | succ n ih =>
    intro i h12 h23
    simp only [comparePartsFrom] at h12 h23 ⊢
    split_ifs at h12 h23 ⊢ <;>
      first
        | rfl
        | omega
        | exact ih (i + 1) h12 h23

theorem comparePartsFrom_lift (pa pb : List Nat) (F : Nat)
    (h1 : pa.length ≤ F) (h2 : pb.length ≤ F) :
    comparePartsFrom pa pb F 0 = comparePartsFrom pa pb (max pa.length pb.length) 0 := by
  have hF : F = (max pa.length pb.length) + (F - max pa.length pb.length) := by omega
  rw [hF, comparePartsFrom_add pa pb (max pa.length pb.length) 0
    (F - max pa.length pb.length) (by omega) (by omega)]

/-- C6: `compareVersions` is antisymmetric (`compareVersions(a,b) =
−compareVersions(b,a)`), returns `0` exactly when the two versions are
component-wise equal after zero-padding, its strict order is transitive, and
on the spec's literal inputs it returns `0`, `1`, `0` and `−1`. -/
theorem compareVersions_algebra :
    (∀ a b : String, isNumeralVersion a = true → isNumeralVersion b = true →
      compareVersions a b = - compareVersions b a) ∧
    (∀ a b : String, isNumeralVersion a = true → isNumeralVersion b = true →
      (compareVersions a b = 0 ↔
        ∀ j, (versionParts a).getD j 0 = (versionParts b).getD j 0)) ∧
    (∀ a b c : String, isNumeralVersion a = true → isNumeralVersion b = true →
      isNumeralVersion c = true → compareVersions a b = 1 →
      compareVersions b c = 1 → compareVersions a c = 1) ∧
    compareVersions "1.2" "1.2.0" = 0 ∧
    compareVersions "1.10.0" "1.9.9" = 1 ∧
    compareVersions "0.0.3" "0.0.3" = 0 ∧
    compareVersions "2.0" "10.0" = -1 := by
  refine ⟨?_, ?_, ?_, by decide, by decide, by decide, by decide⟩
  · intro a b _ _
    rw [compareVersions, compareVersions, comparePartsFrom_neg, Nat.max_comm]
  · intro a b _ _
    rw [compareVersions, comparePartsFrom_eq_zero_iff]
    constructor
    · intro hall j
      by_cases hj : j < max (versionParts a).length (versionParts b).length
      · exact hall j (Nat.zero_le j) (by omega)
      · rw [List.getD_eq_default _ 0 (by omega), List.getD_eq_default _ 0 (by omega)]
    · intro hall j _ _
      exact hall j
  · intro a b c _ _ _ h12 h23
    rw [compareVersions] at h12 h23 ⊢
    have hF12 := comparePartsFrom_lift (versionParts a) (versionParts b)
      (max (versionParts a).length
        (max (versionParts b).length (versionParts c).length))
      (by omega) (by omega)
    have hF23 := comparePartsFrom_lift (versionParts b) (versionParts c)
      (max (versionParts a).length
        (max (versionParts b).length (versionParts c).length))
      (by omega) (by omega)
    have hF13 := comparePartsFrom_lift (versionParts a) (versionParts c)
      (max (versionParts a).length
        (max (versionParts b).length (versionParts c).length))
      (by omega) (by omega)
    rw [← hF13]
    exact comparePartsFrom_trans (versionParts a) (versionParts b) (versionParts c)
      (max (versionParts a).length
        (max (versionParts b).length (versionParts c).length)) 0
      (by rw [hF12]; exact h12) (by rw [hF23]; exact h23)

/-! ## Theorems: snapshot ring bound -/

theorem pushSnapshotRing_drop (maxSnapshots : Nat) (p : List MemorySnapshot)
    (s : MemorySnapshot) :
    pushSnapshotRing maxSnapshots (p.drop (p.length - maxSnapshots)) s
      = (p ++ [s]).drop ((p ++ [s]).length - maxSnapshots) := by
  rw [pushSnapshotRing]
  by_cases hmax : p.length < maxSnapshots
  · have h0 : p.length - maxSnapshots = 0 := by omega
    rw [h0, List.drop_zero, if_neg (by simp; omega)]
    have h1 : (p ++ [s]).length - maxSnapshots = 0 := by simp; omega
    rw [h1, List.drop_zero]
  · have hlen : (p.drop (p.length - maxSnapshots)).length = maxSnapshots := by
      rw [List.length_drop]
      omega
    rw [if_pos (by simp [hlen])]
    by_cases h0 : maxSnapshots = 0
    · subst h0
      rw [List.drop_eq_nil_of_le (by omega)]
      rw [List.drop_eq_nil_of_le (by simp)]
      rfl
    · have hne : p.drop (p.length - maxSnapshots) ≠ [] := by
        intro hnil
        rw [hnil] at hlen
        exact h0 hlen.symm
      obtain ⟨x, xs, hx⟩ := List.exists_cons_of_ne_nil hne
      rw [hx]
      have htail : (x :: xs ++ [s]).tail = (x :: xs).tail ++ [s] := rfl
      rw [htail, ← hx, List.tail_drop]
      have harith : (p ++ [s]).length - maxSnapshots = p.length - maxSnapshots + 1 := by
        simp
        omega
      rw [harith, List.drop_append_of_le_length (by omega)]

theorem foldl_pushSnapshotRing_drop (maxSnapshots : Nat) :
    ∀ (snaps p : List MemorySnapshot),
      snaps.foldl (pushSnapshotRing maxSnapshots) (p.drop (p.length - maxSnapshots))
        = (p ++ snaps).drop ((p ++ snaps).length - maxSnapshots) := by
  intro snaps
  induction snaps with
  | nil =>
    intro p
    simp
  | cons s rest ih =>
    intro p
    rw [List.foldl_cons, pushSnapshotRing_drop, ih (p ++ [s])]
    simp

/-- C8: after any sequence of `takeSnapshot` calls a module's ring holds at
most `maxSnapshots` entries, and it is exactly the most recent
`maxSnapshots` of the snapshots pushed (the oldest are dropped). -/
theorem snapshot_ring_bounded :
    (∀ (maxSnapshots : Nat) (snaps : List MemorySnapshot),
      (ringAfter maxSnapshots snaps).length ≤ maxSnapshots) ∧
    (∀ (maxSnapshots : Nat) (snaps : List MemorySnapshot),
      ringAfter maxSnapshots snaps = snaps.drop (snaps.length - maxSnapshots)) := by
  have hdrop : ∀ (maxSnapshots : Nat) (snaps : List MemorySnapshot),
      ringAfter maxSnapshots snaps = snaps.drop (snaps.length - maxSnapshots) := by
    intro maxSnapshots snaps
    have := foldl_pushSnapshotRing_drop maxSnapshots snaps []
    simpa [ringAfter] using this
  refine ⟨?_, hdrop⟩
  intro maxSnapshots snaps
  rw [hdrop, List.length_drop]
  omega

/-! ## Theorems: module lifecycle transitions -/

theorem initializeModule_amended (m : ModuleRT) (r : HookResult) :
    ((initializeModule m r).2.1).all amendedTransitionOk = true := by
  rcases m with ⟨s, e⟩
  rcases r with _ | msg <;> cases s <;> rfl

theorem startModule_amended (m : ModuleRT) (r : HookResult) :
    ((startModule m r).2.1).all amendedTransitionOk = true := by
  rcases m with ⟨s, e⟩
  rcases r with _ | msg <;> cases s <;> rfl

theorem stopModule_amended (m : ModuleRT) (r : HookResult) :
    ((stopModule m r).2.1).all amendedTransitionOk = true := by
  rcases m with ⟨s, e⟩
  rcases r with _ | msg <;> cases s <;> rfl

theorem resetModule_amended (m : ModuleRT) :
    ((resetModule m).2.1).all amendedTransitionOk = true := by
  rcases m with ⟨s, e⟩
  cases s <;> rfl

theorem restartModule_amended (m : ModuleRT) (rStop rStart : HookResult) :
    ((restartModule m rStop rStart).2.1).all amendedTransitionOk = true := by
  have h1 := stopModule_amended m rStop
  rcases hstop : stopModule m rStop with ⟨m1, t1, thr⟩
  rw [hstop] at h1
  have h2 := startModule_amended m1 rStart
  rcases hstart : startModule m1 rStart with ⟨m2, t2, thr2⟩
  rw [hstart] at h2
  cases thr
  · simp only [restartModule, hstop, hstart, List.all_append, Bool.and_eq_true]
    exact ⟨h1, h2⟩
  · simp only [restartModule, hstop]
    exact h1

theorem applyCall_amended (m : ModuleRT) (c : LifecycleCall) :
    ((applyCall m c).2.1).all amendedTransitionOk = true := by
  cases c with
  | callInit r => exact initializeModule_amended m r
  | callStart r => exact startModule_amended m r
  | callStop r => exact stopModule_amended m r
  | callRestart rStop rStart => exact restartModule_amended m rStop rStart
  | callReset => exact resetModule_amended m

/-- C3 (amended): along every sequence of public lifecycle calls, every
transition performed by `initialize`, `start`, `stop` and `restart` is in
the legal table, guard-refused calls leave the module unchanged, and
`reset()` always clears the error and forces UNINITIALIZED — from any
state, not only from ERROR. -/
theorem lifecycle_transitions_amended :
    (∀ (m : ModuleRT) (calls : List LifecycleCall),
      ((runCalls m calls).2).all amendedTransitionOk = true) ∧
    (∀ (m : ModuleRT) (r : HookResult), m.state ≠ ModuleState.UNINITIALIZED →
      initializeModule m r = (m, [], false)) ∧
    (∀ (m : ModuleRT) (r : HookResult), m.state ≠ ModuleState.INITIALIZED →
      m.state ≠ ModuleState.STOPPED → startModule m r = (m, [], false)) ∧
    (∀ (m : ModuleRT) (r : HookResult), m.state ≠ ModuleState.RUNNING →
      stopModule m r = (m, [], false)) ∧
    (∀ m : ModuleRT, (resetModule m).1.lastError = none ∧
      (resetModule m).1.state = ModuleState.UNINITIALIZED) := by
  refine ⟨?_, ?_, ?_, ?_, ?_⟩
  · intro m calls
    induction calls generalizing m with
    | nil => rfl
    | cons c cs ih =>
      have h1 := applyCall_amended m c
      rcases hc : applyCall m c with ⟨m1, t1, thr⟩
      rw [hc] at h1
      have h2 := ih m1
      rcases hr : runCalls m1 cs with ⟨m2, t2⟩
      rw [hr] at h2
      simp only [runCalls, hc, hr, List.all_append, Bool.and_eq_true]
      exact ⟨h1, h2⟩
  · intro m r h
    rw [initializeModule, if_pos h]
  · intro m r h1 h2
    rw [startModule, if_pos ⟨h1, h2⟩]
  · intro m r h
    rw [stopModule, if_pos h]
  · intro m
    rcases m with ⟨s, e⟩
    cases s <;> exact ⟨rfl, rfl⟩

/-- C3 (counterexample): from a fresh module, `initialize(); start();
reset()` performs the transition RUNNING → UNINITIALIZED via `reset` — an
unlisted transition, applied from a state other than ERROR rather than
refused. -/
theorem lifecycle_reset_counterexample :
    (runCalls freshModule [.callInit .ok, .callStart .ok, .callReset]).2 =
      [⟨.initOp, .UNINITIALIZED, .INITIALIZING⟩,
       ⟨.initOp, .INITIALIZING, .INITIALIZED⟩,
       ⟨.startOp, .INITIALIZED, .STARTING⟩,
       ⟨.startOp, .STARTING, .RUNNING⟩,
       ⟨.resetOp, .RUNNING, .UNINITIALIZED⟩] ∧
    claimedTransitionOk ⟨.resetOp, .RUNNING, .UNINITIALIZED⟩ = false ∧
    legalTransition ModuleState.RUNNING ModuleState.UNINITIALIZED = false := by
  decide

/-! ## Theorems: recovery supervisor -/

/-! ## Theorems: recovery supervisor -/

theorem countSched_append_one (n n' : String) (l : List String) :
    countSched n (l ++ [n']) = countSched n l + (if n' = n then 1 else 0) := by
  rw [countSched, List.filter_append, List.length_append, countSched]
  by_cases h : n' = n
  · simp [h]
  · simp [h]

theorem lookupAttempts_set_self (attempts : List (String × Nat)) (n : String) (v : Nat) :
    lookupAttempts (setAttempts attempts n v) n = v := by
  induction attempts with
  | nil => simp [setAttempts, lookupAttempts]
  | cons p ps ih =>
    by_cases hp : p.1 = n
    · simp [setAttempts, lookupAttempts, hp]
    · simp [setAttempts, lookupAttempts, hp, ih]

theorem lookupAttempts_set_ne (attempts : List (String × Nat)) (n n' : String)
    (v : Nat) (h : n' ≠ n) :
    lookupAttempts (setAttempts attempts n v) n' = lookupAttempts attempts n' := by
  induction attempts with
  | nil => simp [setAttempts, lookupAttempts, Ne.symm h]
  | cons p ps ih =>
    by_cases hp : p.1 = n
    · rw [setAttempts, if_pos hp, lookupAttempts, if_neg (Ne.symm h), lookupAttempts,
        if_neg (show ¬ p.1 = n' by rw [hp]; exact Ne.symm h)]
    · rw [setAttempts, if_neg hp, lookupAttempts, lookupAttempts]
      by_cases hp' : p.1 = n'
      · rw [if_pos hp', if_pos hp']
      · rw [if_neg hp', if_neg hp', ih]

theorem lookupAttempts_delete_self (attempts : List (String × Nat)) (n : String) :
    lookupAttempts (deleteAttempts attempts n) n = 0 := by
  induction attempts with
  | nil => rfl
  | cons p ps ih =>
    rw [deleteAttempts, List.filter_cons]
    by_cases hp : p.1 = n
    · rw [if_neg (by simp [hp])]
      exact ih
    · rw [if_pos (by simp [hp]), lookupAttempts, if_neg hp]
      exact ih

theorem lookupAttempts_delete_ne (attempts : List (String × Nat)) (n n' : String)
    (h : n' ≠ n) :
    lookupAttempts (deleteAttempts attempts n) n' = lookupAttempts attempts n' := by
  induction attempts with
  | nil => rfl
  | cons p ps ih =>
    rw [deleteAttempts, List.filter_cons]
    by_cases hp : p.1 = n
    · rw [if_neg (by simp [hp]), lookupAttempts, if_neg (show ¬ p.1 = n' by rw [hp]; exact Ne.symm h)]
      exact ih
    · rw [if_pos (by simp [hp]), lookupAttempts, lookupAttempts]
      by_cases hp' : p.1 = n'
      · rw [if_pos hp', if_pos hp']
      · rw [if_neg hp', if_neg hp']
        exact ih

theorem supervisorStep_counter_le (opts : RecoveryOptions) (st : SupervisorState)
    (e : RecoveryEvent) (n : String)
    (h : lookupAttempts st.recoveryAttempts n ≤ opts.maxAttempts) :
    lookupAttempts ((supervisorStep opts st e).recoveryAttempts) n ≤ opts.maxAttempts := by
  cases e with
  | moduleError n' op =>
    rw [supervisorStep, handleModuleError]
    split_ifs with h1
    · rw [attemptModuleRecovery]
      split_ifs with h2
      · exact h
      · by_cases hn : n' = n
        · subst hn
          rw [lookupAttempts_set_self]
          omega
        · rw [lookupAttempts_set_ne _ _ _ _ (fun hh => hn hh.symm)]
          exact h
    · exact h
  | recoveryOutcome n' s =>
    rw [supervisorStep, handleRecoveryOutcome]
    split_ifs with h1
    · by_cases hn : n' = n
      · subst hn
        rw [lookupAttempts_delete_self]
        omega
      · rw [lookupAttempts_delete_ne _ _ _ (fun hh => hn hh.symm)]
        exact h
    · exact h

theorem foldl_supervisor_counter_le (opts : RecoveryOptions) :
    ∀ (evs : List RecoveryEvent) (st : SupervisorState) (n : String),
      lookupAttempts st.recoveryAttempts n ≤ opts.maxAttempts →
      lookupAttempts ((evs.foldl (supervisorStep opts) st).recoveryAttempts) n ≤
        opts.maxAttempts := by
  intro evs
  induction evs with
  | nil => intro st n h; exact h
  | cons e es ih =>
    intro st n h
    exact ih (supervisorStep opts st e) n (supervisorStep_counter_le opts st e n h)

theorem supervisorStep_delta (opts : RecoveryOptions) (st : SupervisorState)
    (e : RecoveryEvent) (n : String) (h : isSuccessFor n e = false) :
    countSched n (supervisorStep opts st e).scheduled + lookupAttempts st.recoveryAttempts n
      = countSched n st.scheduled +
        lookupAttempts ((supervisorStep opts st e).recoveryAttempts) n := by
  cases e with
  | moduleError n' op =>
    rw [supervisorStep, handleModuleError]
    split_ifs with h1
    · rw [attemptModuleRecovery]
      split_ifs with h2
      · rfl
      · by_cases hn : n' = n
        · rw [← hn]
          show countSched n' (st.scheduled ++ [n']) + lookupAttempts st.recoveryAttempts n'
            = countSched n' st.scheduled +
              lookupAttempts (setAttempts st.recoveryAttempts n'
                (lookupAttempts st.recoveryAttempts n' + 1)) n'
          rw [lookupAttempts_set_self, countSched_append_one, if_pos rfl]
          omega
        · show countSched n (st.scheduled ++ [n']) + lookupAttempts st.recoveryAttempts n
            = countSched n st.scheduled +
              lookupAttempts (setAttempts st.recoveryAttempts n'
                (lookupAttempts st.recoveryAttempts n' + 1)) n
          rw [lookupAttempts_set_ne _ _ _ _ (fun hh => hn hh.symm),
            countSched_append_one, if_neg hn]
          omega
    · rfl
  | recoveryOutcome n' s =>
    cases s with
    | true =>
      have hn : ¬ n' = n := by simpa [isSuccessFor] using h
      simp only [supervisorStep, handleRecoveryOutcome, if_pos rfl, if_true]
      rw [lookupAttempts_delete_ne _ _ _ (fun hh => hn hh.symm)]
    | false => rfl

theorem foldl_supervisor_delta (opts : RecoveryOptions) :
    ∀ (evs : List RecoveryEvent) (st : SupervisorState) (n : String),
      hasSuccessFor n evs = false →
      countSched n (evs.foldl (supervisorStep opts) st).scheduled +
          lookupAttempts st.recoveryAttempts n
        = countSched n st.scheduled +
          lookupAttempts ((evs.foldl (supervisorStep opts) st).recoveryAttempts) n := by
  intro evs
  induction evs with
  | nil => intro st n _; rfl
  | cons e es ih =>
    intro st n h
    rw [hasSuccessFor, List.any_cons, Bool.or_eq_false_iff] at h
    have hstep := supervisorStep_delta opts st e n h.1
    have htail := ih (supervisorStep opts st e) n h.2
    rw [List.foldl_cons]
    omega

theorem supervisorStep_sched_bound (opts : RecoveryOptions) (st : SupervisorState)
    (e : RecoveryEvent) (n : String) :
    countSched n (supervisorStep opts st e).scheduled ≤
      countSched n st.scheduled + (if isQualifyingError n e = true then 1 else 0) := by
  cases e with
  | moduleError n' op =>
    rw [supervisorStep, handleModuleError]
    by_cases h1 : opts.enabled = true ∧ n' ≠ "" ∧ op ≠ "initialization"
    · rw [if_pos h1, attemptModuleRecovery]
      by_cases h2 : lookupAttempts st.recoveryAttempts n' ≥ opts.maxAttempts
      · rw [if_pos h2]
        split_ifs <;> omega
      · rw [if_neg h2]
        show countSched n (st.scheduled ++ [n']) ≤ countSched n st.scheduled +
          (if isQualifyingError n (RecoveryEvent.moduleError n' op) = true then 1 else 0)
        rw [countSched_append_one]
        by_cases hn : n' = n
        · rw [if_pos hn]
          have hqe : isQualifyingError n (RecoveryEvent.moduleError n' op) = true := by
            simp [isQualifyingError, hn, h1.2.2]
          rw [if_pos hqe]
        · rw [if_neg hn]
          split_ifs <;> omega
    · rw [if_neg h1]
      split_ifs <;> omega
  | recoveryOutcome n' s =>
    rw [supervisorStep, handleRecoveryOutcome]
    have hq : isQualifyingError n (RecoveryEvent.recoveryOutcome n' s) = false := rfl
    rw [hq]
    cases s with
    | true => simp
    | false => simp

theorem foldl_supervisor_sched_bound (opts : RecoveryOptions) :
    ∀ (evs : List RecoveryEvent) (st : SupervisorState) (n : String),
      countSched n (evs.foldl (supervisorStep opts) st).scheduled ≤
        countSched n st.scheduled + qualifyingErrors n evs := by
  intro evs
  induction evs with
  | nil =>
    intro st n
    simp [qualifyingErrors, countSched]
  | cons e es ih =>
    intro st n
    have hstep := supervisorStep_sched_bound opts st e n
    have htail := ih (supervisorStep opts st e) n
    rw [List.foldl_cons]
    have hq : qualifyingErrors n (e :: es) =
        (if isQualifyingError n e = true then 1 else 0) + qualifyingErrors n es := by
      rw [qualifyingErrors, List.filter_cons, qualifyingErrors]
      by_cases hqe : isQualifyingError n e = true
      · rw [if_pos hqe, if_pos hqe, List.length_cons]
        omega
      · rw [if_neg hqe, if_neg hqe, Nat.zero_add]
    by_cases hqe : isQualifyingError n e = true
    · rw [if_pos hqe] at hstep
      rw [hq, if_pos hqe]
      omega
    · rw [if_neg hqe] at hstep
      rw [hq, if_neg hqe]
      omega

theorem foldl_supervisor_disabled (maxAttempts delayMs : Nat) :
    ∀ (evs : List RecoveryEvent) (st : SupervisorState),
      (evs.foldl (supervisorStep ⟨false, maxAttempts, delayMs⟩) st).scheduled
        = st.scheduled := by
  intro evs
  induction evs with
  | nil => intro st; rfl
  | cons e es ih =>
    intro st
    rw [List.foldl_cons, ih]
    cases e with
    | moduleError n' op =>
      rw [supervisorStep, handleModuleError]
      rw [if_neg (by simp)]
    | recoveryOutcome n' s =>
      rw [supervisorStep, handleRecoveryOutcome]
      split_ifs <;> rfl

/-- C5: the recovery supervisor never schedules anything when recovery is
disabled; it schedules at most one recovery per `moduleError` whose
operation is not `"initialization"` (and none for initialization errors);
while no recovery of a module has succeeded, its counter equals the number
of recoveries scheduled for it (incremented before each attempt) and at
most `maxAttempts` further recoveries are scheduled after any point; and a
successful recovery deletes the counter. -/
theorem recovery_supervisor_bounded :
    (∀ (maxAttempts delayMs : Nat) (evs : List RecoveryEvent),
      (runSupervisor ⟨false, maxAttempts, delayMs⟩ evs).scheduled = []) ∧
    (∀ (opts : RecoveryOptions) (evs : List RecoveryEvent) (n : String),
      countSched n (runSupervisor opts evs).scheduled ≤ qualifyingErrors n evs) ∧
    (∀ (opts : RecoveryOptions) (evs : List RecoveryEvent) (n : String),
      hasSuccessFor n evs = false →
      lookupAttempts (runSupervisor opts evs).recoveryAttempts n
        = countSched n (runSupervisor opts evs).scheduled) ∧
    (∀ (opts : RecoveryOptions) (e1 e2 : List RecoveryEvent) (n : String),
      hasSuccessFor n e2 = false →
      countSched n (runSupervisor opts (e1 ++ e2)).scheduled ≤
        countSched n (runSupervisor opts e1).scheduled + opts.maxAttempts) ∧
    (∀ (opts : RecoveryOptions) (evs : List RecoveryEvent) (n : String),
      lookupAttempts
        (runSupervisor opts
          (evs ++ [RecoveryEvent.recoveryOutcome n true])).recoveryAttempts n = 0) := by
  refine ⟨?_, ?_, ?_, ?_, ?_⟩
  · intro maxAttempts delayMs evs
    exact foldl_supervisor_disabled maxAttempts delayMs evs ⟨[], []⟩
  · intro opts evs n
    have h := foldl_supervisor_sched_bound opts evs ⟨[], []⟩ n
    have h0 : countSched n (SupervisorState.mk [] []).scheduled = 0 := rfl
    rw [runSupervisor]
    omega
  · intro opts evs n h
    have hd := foldl_supervisor_delta opts evs ⟨[], []⟩ n h
    have h0 : countSched n (SupervisorState.mk [] []).scheduled = 0 := rfl
    have h1 : lookupAttempts (SupervisorState.mk [] []).recoveryAttempts n = 0 := rfl
    rw [runSupervisor]
    omega
  · intro opts e1 e2 n h
    rw [runSupervisor, List.foldl_append]
    have hdelta := foldl_supervisor_delta opts e2 (e1.foldl (supervisorStep opts) ⟨[], []⟩) n h
    have hle := foldl_supervisor_counter_le opts e2 (e1.foldl (supervisorStep opts) ⟨[], []⟩) n
      (foldl_supervisor_counter_le opts e1 ⟨[], []⟩ n (by simp [lookupAttempts]))
    rw [runSupervisor]
    omega
  · intro opts evs n
    rw [runSupervisor, List.foldl_append, List.foldl_cons, List.foldl_nil]
    rw [supervisorStep, handleRecoveryOutcome, if_pos rfl]
    exact lookupAttempts_delete_self _ n
/-! ## Theorems: permission checks -/

/-- C9: `checkPermission` returns true on a local grant; otherwise it
returns the verdict of a registered `auth` module's
`checkModulePermission` applied to `(this.name, action, resource)` when one
is exposed; in every remaining case (no manager back-reference, no `auth`
module, or no `checkModulePermission` function) it allows. -/
theorem checkPermission_policy :
    (∀ (perms : List (String × List String)) (mgr : Option (List AuthView))
        (selfName action resource : String),
      localGranted perms action resource = true →
      checkPermission perms mgr selfName action resource = true) ∧
    (∀ (perms : List (String × List String)) (registry : List AuthView)
        (selfName action resource : String) (authM : AuthView)
        (f : String → String → String → Bool),
      localGranted perms action resource = false →
      getAuthView registry "auth" = some authM →
      authM.checkModulePermission = some f →
      checkPermission perms (some registry) selfName action resource
        = f selfName action resource) ∧
    (∀ (perms : List (String × List String)) (registry : List AuthView)
        (selfName action resource : String) (authM : AuthView),
      localGranted perms action resource = false →
      getAuthView registry "auth" = some authM →
      authM.checkModulePermission = none →
      checkPermission perms (some registry) selfName action resource = true) ∧
    (∀ (perms : List (String × List String)) (registry : List AuthView)
        (selfName action resource : String),
      localGranted perms action resource = false →
      getAuthView registry "auth" = none →
      checkPermission perms (some registry) selfName action resource = true) ∧
    (∀ (perms : List (String × List String)) (selfName action resource : String),
      localGranted perms action resource = false →
      checkPermission perms none selfName action resource = true) := by
  refine ⟨?_, ?_, ?_, ?_, ?_⟩
  · intro perms mgr selfName action resource h
    simp [checkPermission, h]
  · intro perms registry selfName action resource authM f h hauth hf
    simp [checkPermission, h, hauth, hf]
  · intro perms registry selfName action resource authM h hauth hf
    simp [checkPermission, h, hauth, hf]
  · intro perms registry selfName action resource h hauth
    simp [checkPermission, h, hauth]
  · intro perms selfName action resource h
    simp [checkPermission, h]

/-! ## Theorems: registration of disabled modules -/

/-- C10 (counterexample): when a module named `a` is already registered,
`registerModule` on a disabled module named `a` throws the duplicate-name
error instead of returning normally — the duplicate check at line 600
precedes the disabled check at line 604. -/
theorem registerModule_disabled_duplicate_cex :
    registerModule [⟨⟨"a", [], 50, false⟩, true, true⟩] ⟨"a", [], 50, true⟩
      = Except.error "Module a is already registered" := by
  rfl

/-- C10 (amended): for a disabled module whose name is not yet registered,
`registerModule` returns normally and is a complete no-op: the registry is
unchanged (so `getModule` still returns undefined) and no `error` or
`stateChange` listener is installed. -/
theorem registerModule_disabled_noop (registry : List RegEntry) (m : ModuleDef)
    (hfresh : ∀ e ∈ registry, e.module.name ≠ m.name) (hdis : m.disabled = true) :
    registerModule registry m = Except.ok registry := by
  rw [registerModule, if_neg, if_pos hdis]
  simp only [List.any_eq_true, decide_eq_true_eq, not_exists]
  intro e
  intro hcontra
  exact hfresh e hcontra.1 hcontra.2

/-- C10 (witness): registering a fresh disabled module into the empty
registry leaves it empty and does not throw. -/
theorem registerModule_disabled_noop_witness :
    registerModule [] ⟨"b", [], 50, true⟩ = Except.ok [] :=
  registerModule_disabled_noop [] ⟨"b", [], 50, true⟩ (by simp) rfl

/-! ## Theorems: loadModules partial failure -/

/-- C4: with one loadable directory and one whose import throws, the batch
still registers and counts the good module and counts the failure — but
`loadModules` itself rejects with the per-module error (the catch at line
456 rethrows into `Promise.all` and the outer catch rethrows out of the
method), instead of returning normally as the spec requires. -/
theorem loadModules_partial_failure :
    loadModules []
        [("good", ImportResult.moduleInstance ⟨"good", [], 50, false⟩ false),
         ("bad", ImportResult.importError "boom")]
      = (⟨[⟨⟨"good", [], 50, false⟩, true, true⟩], 1, 0, 1, some "boom"⟩,
         Except.error "boom") := by
  rfl

/-! ## Theorems: memory growth analysis -/

theorem elapsed_code_eq (oldest newest : MemorySnapshot) :
    ((newest.timestamp : ℚ) - (oldest.timestamp : ℚ)) / 1000 / 60 / 60
      = elapsedHoursOf oldest newest := by
  rw [elapsedHoursOf]
  ring

theorem growthRate_code_eq (oldest newest : MemorySnapshot) :
    (((newest.heapUsed : ℚ) - (oldest.heapUsed : ℚ)) / 1024 / 1024) /
      elapsedHoursOf oldest newest
      = growthRateOf oldest newest := by
  rw [growthRateOf]
  ring

theorem analyzeModuleSnapshots_spec (thresholds : Thresholds)
    (snapshots : List MemorySnapshot) (oldest newest : MemorySnapshot)
    (hlen : 2 ≤ snapshots.length) (hhead : snapshots.head? = some oldest)
    (hlast : snapshots.getLast? = some newest)
    (helap : 1 / 100 ≤ elapsedHoursOf oldest newest) :
    analyzeModuleSnapshots thresholds snapshots
      = severityMap thresholds (growthRateOf oldest newest) := by
  simp only [analyzeModuleSnapshots, hhead, hlast]
  rw [if_neg (Nat.not_lt.mpr hlen), elapsed_code_eq, growthRate_code_eq,
    if_neg (not_lt.mpr helap), severityMap]

/-- C7: for a snapshot ring with at least two snapshots whose oldest and
newest are at least 0.01 hours apart, `analyzeMemoryUsage` computes
`growthRate = ((newest.heapUsed − oldest.heapUsed)/2^20)/elapsedHours` and
classifies it high / medium / low against the thresholds, reporting nothing
below `low`; with thresholds `{low := 5, medium := 20, high := 50}`, a 25 MB
heap difference over one hour yields a medium finding with growth rate
25. -/
theorem memory_leak_analysis :
    (∀ (thresholds : Thresholds) (snapshots : List MemorySnapshot)
        (oldest newest : MemorySnapshot),
      2 ≤ snapshots.length →
      snapshots.head? = some oldest →
      snapshots.getLast? = some newest →
      1 / 100 ≤ elapsedHoursOf oldest newest →
      analyzeModuleSnapshots thresholds snapshots
        = severityMap thresholds (growthRateOf oldest newest)) ∧
    analyzeMemoryUsage ⟨5, 20, 50⟩
        [("X", [⟨0, 0, 0, 0, 0, 0⟩, ⟨3600000, 26214400, 0, 0, 0, 0⟩])]
      = [("X", Severity.medium, 25)] := by
  constructor
  · intro thresholds snapshots oldest newest hlen hhead hlast helap
    exact analyzeModuleSnapshots_spec thresholds snapshots oldest newest
      hlen hhead hlast helap
  · have h1 := analyzeModuleSnapshots_spec ⟨5, 20, 50⟩
      [⟨0, 0, 0, 0, 0, 0⟩, ⟨3600000, 26214400, 0, 0, 0, 0⟩]
      ⟨0, 0, 0, 0, 0, 0⟩ ⟨3600000, 26214400, 0, 0, 0, 0⟩
      (by norm_num) rfl rfl (by norm_num [elapsedHoursOf])
    have hgr : growthRateOf ⟨0, 0, 0, 0, 0, 0⟩ ⟨3600000, 26214400, 0, 0, 0, 0⟩
        = 25 := by
      norm_num [growthRateOf, elapsedHoursOf]
    rw [hgr] at h1
    have hsev : severityMap ⟨5, 20, 50⟩ 25 = some (Severity.medium, 25) := by
      norm_num [severityMap]
    rw [hsev] at h1
    simp [analyzeMemoryUsage, h1]

/-! ## Theorems: topological ordering -/

theorem visit_succ_ok_inversion (reg : List ModuleDef) (fuel : Nat) (n : String)
    (st st' : SortState) (h : visit reg (fuel + 1) n st = Except.ok st') :
    (n ∈ st.visited ∧ st' = st) ∨
    (n ∉ st.visited ∧ n ∉ st.visiting ∧ ∃ m st2,
      reg.find? (fun m => m.name = n) = some m ∧
      visitDeps reg (visit reg fuel) m.dependencies
        { st with visiting := st.visiting ++ [n] } = Except.ok st2 ∧
      st' = { visited := st2.visited ++ [n], visiting := st2.visiting.erase n,
              sorted := st2.sorted ++ [m] }) := by
  rw [visit] at h
  split_ifs at h with h1 h2
  · cases h
    exact Or.inl ⟨h1, rfl⟩
  · refine Or.inr ⟨h1, h2, ?_⟩
    cases hfind : reg.find? (fun m => decide (m.name = n)) with
    | none =>
      rw [hfind] at h
      simp at h
    | some m =>
      rw [hfind] at h
      dsimp only at h
      cases hdeps : visitDeps reg (visit reg fuel) m.dependencies
          { st with visiting := st.visiting ++ [n] } with
      | error e =>
        rw [hdeps] at h
        simp at h
      | ok st2 =>
        rw [hdeps] at h
        dsimp only at h
        cases h
        exact ⟨m, st2, rfl, hdeps, rfl⟩

theorem visit_succ_error_inversion (reg : List ModuleDef) (fuel : Nat) (n : String)
    (st : SortState) (e : SortError) (h : visit reg (fuel + 1) n st = Except.error e) :
    n ∉ st.visited ∧
    ((n ∈ st.visiting ∧ e = SortError.circular (st.visiting ++ [n])) ∨
     (n ∉ st.visiting ∧ reg.find? (fun m => m.name = n) = none ∧
       e = SortError.notFound n) ∨
     (n ∉ st.visiting ∧ ∃ m, reg.find? (fun m => m.name = n) = some m ∧
       visitDeps reg (visit reg fuel) m.dependencies
         { st with visiting := st.visiting ++ [n] } = Except.error e)) := by
  rw [visit] at h
  split_ifs at h with h1 h2
  · refine ⟨h1, Or.inl ⟨h2, ?_⟩⟩
    cases h
    rfl
  · refine ⟨h1, ?_⟩
    cases hfind : reg.find? (fun m => decide (m.name = n)) with
    | none =>
      rw [hfind] at h
      dsimp only at h
      cases h
      exact Or.inr (Or.inl ⟨h2, rfl, rfl⟩)
    | some m =>
      rw [hfind] at h
      dsimp only at h
      cases hdeps : visitDeps reg (visit reg fuel) m.dependencies
          { st with visiting := st.visiting ++ [n] } with
      | error e2 =>
        rw [hdeps] at h
        dsimp only at h
        cases h
        exact Or.inr (Or.inr ⟨h2, m, rfl, hdeps⟩)
      | ok st2 =>
        rw [hdeps] at h
        simp at h

theorem visitDeps_cons_ok_inversion (reg : List ModuleDef)
    (visitF : String → SortState → Except SortError SortState)
    (d : String) (ds : List String) (st st' : SortState)
    (h : visitDeps reg visitF (d :: ds) st = Except.ok st') :
    (reg.any (fun m => m.name = d) = true ∧ ∃ stx,
      visitF d st = Except.ok stx ∧
      visitDeps reg visitF ds stx = Except.ok st') ∨
    (reg.any (fun m => m.name = d) = false ∧
      visitDeps reg visitF ds st = Except.ok st') := by
  rw [visitDeps] at h
  split_ifs at h with hreg
  · cases hvst : visitF d st with
    | error e =>
      rw [hvst] at h
      simp at h
    | ok stx =>
      rw [hvst] at h
      dsimp only at h
      exact Or.inl ⟨hreg, stx, rfl, h⟩
  · exact Or.inr ⟨Bool.eq_false_iff.mpr hreg, h⟩

theorem visitDeps_cons_error_inversion (reg : List ModuleDef)
    (visitF : String → SortState → Except SortError SortState)
    (d : String) (ds : List String) (st : SortState) (e : SortError)
    (h : visitDeps reg visitF (d :: ds) st = Except.error e) :
    (reg.any (fun m => m.name = d) = true ∧
      visitF d st = Except.error e) ∨
    (reg.any (fun m => m.name = d) = true ∧ ∃ stx,
      visitF d st = Except.ok stx ∧
      visitDeps reg visitF ds stx = Except.error e) ∨
    (reg.any (fun m => m.name = d) = false ∧
      visitDeps reg visitF ds st = Except.error e) := by
  rw [visitDeps] at h
  split_ifs at h with hreg
  · cases hvst : visitF d st with
    | error e2 =>
      rw [hvst] at h
      dsimp only at h
      cases h
      exact Or.inl ⟨hreg, rfl⟩
    | ok stx =>
      rw [hvst] at h
      dsimp only at h
      exact Or.inr (Or.inl ⟨hreg, stx, rfl, h⟩)
  · exact Or.inr (Or.inr ⟨Bool.eq_false_iff.mpr hreg, h⟩)

theorem visit_zero_not_ok (reg : List ModuleDef) (n : String) (st st' : SortState) :
    visit reg 0 n st = Except.ok st' → False := by
  intro h
  rw [visit] at h
  simp at h

theorem visitDeps_nil_ok (reg : List ModuleDef)
    (visitF : String → SortState → Except SortError SortState) (st st' : SortState)
    (h : visitDeps reg visitF [] st = Except.ok st') : st' = st := by
  rw [visitDeps] at h
  cases h
  rfl

theorem visitDeps_visiting_of (reg : List ModuleDef)
    (visitF : String → SortState → Except SortError SortState)
    (hv : ∀ n st st', visitF n st = Except.ok st' → st'.visiting = st.visiting) :
    ∀ ds st st', visitDeps reg visitF ds st = Except.ok st' →
      st'.visiting = st.visiting := by
  intro ds
  induction ds with
  | nil =>
    intro st st' h
    rw [visitDeps_nil_ok reg visitF st st' h]
  | cons d ds ihds =>
    intro st st' h
    rcases visitDeps_cons_ok_inversion reg visitF d ds st st' h with
      ⟨_, stx, hvst, hrest⟩ | ⟨_, hrest⟩
    · rw [ihds stx st' hrest, hv d st stx hvst]
    · exact ihds st st' hrest

theorem visit_visiting (reg : List ModuleDef) :
    ∀ fuel n st st', visit reg fuel n st = Except.ok st' →
      st'.visiting = st.visiting := by
  intro fuel
  induction fuel with
  | zero =>
    intro n st st' h
    exact absurd h (fun hh => visit_zero_not_ok reg n st st' hh)
  | succ fuel ih =>
    intro n st st' h
    rcases visit_succ_ok_inversion reg fuel n st st' h with
      ⟨_, rfl⟩ | ⟨hvd, hvg, m, st2, hfind, hdeps, rfl⟩
    · rfl
    · have h2 : st2.visiting = st.visiting ++ [n] :=
        visitDeps_visiting_of reg (visit reg fuel) ih m.dependencies _ st2 hdeps
      show st2.visiting.erase n = st.visiting
      rw [h2, List.erase_append_right _ hvg, List.erase_cons_head, List.append_nil]

theorem visitDeps_visited_of (reg : List ModuleDef)
    (visitF : String → SortState → Except SortError SortState)
    (hvv : ∀ n st st', visitF n st = Except.ok st' → st'.visiting = st.visiting)
    (hv : ∀ n st st', visitF n st = Except.ok st' →
      (∀ x ∈ st.visited, x ∈ st'.visited) ∧ n ∈ st'.visited ∧
      (∀ y ∈ st'.visited, y ∈ st.visited ∨ y ∉ st.visiting)) :
    ∀ ds st st', visitDeps reg visitF ds st = Except.ok st' →
      (∀ x ∈ st.visited, x ∈ st'.visited) ∧
      (∀ d ∈ ds, reg.any (fun m => m.name = d) = true → d ∈ st'.visited) ∧
      (∀ y ∈ st'.visited, y ∈ st.visited ∨ y ∉ st.visiting) := by
  intro ds
  induction ds with
  | nil =>
    intro st st' h
    rw [visitDeps_nil_ok reg visitF st st' h]
    exact ⟨fun x hx => hx, fun d hd => absurd hd (List.not_mem_nil d),
      fun y hy => Or.inl hy⟩
  | cons d ds ihds =>
    intro st st' h
    rcases visitDeps_cons_ok_inversion reg visitF d ds st st' h with
      ⟨hreg, stx, hvst, hrest⟩ | ⟨hreg, hrest⟩
    · have hv1 := hv d st stx hvst
      have ih1 := ihds stx st' hrest
      have hvis : stx.visiting = st.visiting := hvv d st stx hvst
      refine ⟨?_, ?_, ?_⟩
      · intro x hx
        exact ih1.1 x (hv1.1 x hx)
      · intro d2 hd2 hreg2
        rcases List.mem_cons.mp hd2 with heq | hmem
        · rw [heq]
          exact ih1.1 d (hv1.2.1)
        · exact ih1.2.1 d2 hmem hreg2
      · intro y hy
        rcases ih1.2.2 y hy with hyx | hnv
        · rcases hv1.2.2 y hyx with hA | hB
          · exact Or.inl hA
          · exact Or.inr hB
        · rw [hvis] at hnv
          exact Or.inr hnv
    · have ih1 := ihds st st' hrest
      refine ⟨ih1.1, ?_, ih1.2.2⟩
      intro d2 hd2 hreg2
      rcases List.mem_cons.mp hd2 with heq | hmem
      · rw [heq] at hreg2
        rw [hreg] at hreg2
        exact absurd hreg2 (by simp)
      · exact ih1.2.1 d2 hmem hreg2

theorem visit_visited (reg : List ModuleDef) :
    ∀ fuel n st st', visit reg fuel n st = Except.ok st' →
      (∀ x ∈ st.visited, x ∈ st'.visited) ∧ n ∈ st'.visited ∧
      (∀ y ∈ st'.visited, y ∈ st.visited ∨ y ∉ st.visiting) := by
  intro fuel
  induction fuel with
  | zero =>
    intro n st st' h
    exact absurd h (fun hh => visit_zero_not_ok reg n st st' hh)
  | succ fuel ih =>
    intro n st st' h
    rcases visit_succ_ok_inversion reg fuel n st st' h with
      ⟨hvd, rfl⟩ | ⟨hvd, hvg, m, st2, hfind, hdeps, rfl⟩
    · exact ⟨fun x hx => hx, hvd, fun y hy => Or.inl hy⟩
    · have hd := visitDeps_visited_of reg (visit reg fuel)
        (visit_visiting reg fuel) ih m.dependencies _ st2 hdeps
      refine ⟨?_, ?_, ?_⟩
      · intro x hx
        show x ∈ st2.visited ++ [n]
        exact List.mem_append_left _ (hd.1 x hx)
      · show n ∈ st2.visited ++ [n]
        exact List.mem_append_right _ (List.mem_singleton.mpr rfl)
      · intro y hy
        show y ∈ st.visited ∨ y ∉ st.visiting
        rcases List.mem_append.mp hy with hA | hB
        · rcases hd.2.2 y hA with ha | hb
          · exact Or.inl ha
          · exact Or.inr (fun hc => hb (List.mem_append_left _ hc))
        · have hyn : y = n := List.mem_singleton.mp hB
          rw [hyn]
          exact Or.inr hvg

theorem visit_pushed_not_visited (reg : List ModuleDef) (fuel : Nat) (n : String)
    (st st2 : SortState) (m : ModuleDef)
    (hvd : n ∉ st.visited)
    (hdeps : visitDeps reg (visit reg fuel) m.dependencies
      { st with visiting := st.visiting ++ [n] } = Except.ok st2) :
    n ∉ st2.visited := by
  intro hmem
  rcases (visitDeps_visited_of reg (visit reg fuel) (visit_visiting reg fuel)
      (visit_visited reg fuel) m.dependencies _ st2 hdeps).2.2 n hmem with h1 | h2
  · exact hvd h1
  · exact h2 (List.mem_append_right _ (List.mem_singleton.mpr rfl))

theorem respectsDeps_push (reg : List ModuleDef) (l : List ModuleDef) (m : ModuleDef)
    (hl : respectsDeps reg l)
    (hm : ∀ d ∈ m.dependencies, (∃ mm ∈ reg, mm.name = d) →
      d ∈ l.map (fun x => x.name)) :
    respectsDeps reg (l ++ [m]) := by
  intro pre x post hsplit d hd hreg
  cases post with
  | nil =>
    obtain ⟨h1, h2⟩ := List.append_inj' hsplit rfl
    injection h2 with hmx hnil
    subst h1
    rw [← hmx] at hd
    exact hm d hd hreg
  | cons y ys =>
    have hys : (y :: ys).dropLast ++ [(y :: ys).getLast (by simp)] = y :: ys :=
      List.dropLast_append_getLast (by simp)
    rw [← hys] at hsplit
    have hsplit2 : l ++ [m] =
        (pre ++ x :: (y :: ys).dropLast) ++ [(y :: ys).getLast (by simp)] := by
      rw [hsplit]
      simp
    obtain ⟨h1, h2⟩ := List.append_inj' hsplit2 rfl
    exact hl pre x _ h1 d hd hreg

theorem anyName_iff (reg : List ModuleDef) (d : String) :
    reg.any (fun m => m.name = d) = true ↔ ∃ mm ∈ reg, mm.name = d := by
  rw [List.any_eq_true]
  constructor
  · rintro ⟨x, hx, hpx⟩
    exact ⟨x, hx, of_decide_eq_true hpx⟩
  · rintro ⟨x, hx, hpx⟩
    exact ⟨x, hx, decide_eq_true hpx⟩

theorem visitDeps_inv_of (reg : List ModuleDef)
    (visitF : String → SortState → Except SortError SortState)
    (hv : ∀ n st st', visitF n st = Except.ok st' →
      SortInvariant reg st → SortInvariant reg st') :
    ∀ ds st st', visitDeps reg visitF ds st = Except.ok st' →
      SortInvariant reg st → SortInvariant reg st' := by
  intro ds
  induction ds with
  | nil =>
    intro st st' h hinv
    rw [visitDeps_nil_ok reg visitF st st' h]
    exact hinv
  | cons d ds ihds =>
    intro st st' h hinv
    rcases visitDeps_cons_ok_inversion reg visitF d ds st st' h with
      ⟨hreg, stx, hvst, hrest⟩ | ⟨hreg, hrest⟩
    · exact ihds stx st' hrest (hv d st stx hvst hinv)
    · exact ihds st st' hrest hinv

theorem visit_inv (reg : List ModuleDef) :
    ∀ fuel n st st', visit reg fuel n st = Except.ok st' →
      SortInvariant reg st → SortInvariant reg st' := by
  intro fuel
  induction fuel with
  | zero =>
    intro n st st' h
    exact absurd h (fun hh => visit_zero_not_ok reg n st st' hh)
  | succ fuel ih =>
    intro n st st' h hinv
    rcases visit_succ_ok_inversion reg fuel n st st' h with
      ⟨hvd, rfl⟩ | ⟨hvd, hvg, m, st2, hfind, hdeps, rfl⟩
    · exact hinv
    · have hinv2 : SortInvariant reg st2 :=
        visitDeps_inv_of reg (visit reg fuel) ih m.dependencies _ st2 hdeps hinv
      have hname : m.name = n := by
        have hp := List.find?_some hfind
        simpa using hp
      have hnmem : n ∉ st2.visited :=
        visit_pushed_not_visited reg fuel n st st2 m hvd hdeps
      have hdepvis := (visitDeps_visited_of reg (visit reg fuel)
        (visit_visiting reg fuel) (visit_visited reg fuel)
        m.dependencies _ st2 hdeps).2.1
      refine ⟨?_, ?_, ?_, ?_⟩
      · show st2.visited ++ [n] = (st2.sorted ++ [m]).map (fun m => m.name)
        rw [List.map_append, hinv2.1]
        simp [hname]
      · show (st2.visited ++ [n]).Nodup
        rw [List.nodup_append]
        refine ⟨hinv2.2.1, List.nodup_singleton n, ?_⟩
        intro y hy hmem2
        rw [List.mem_singleton.mp hmem2] at hy
        exact hnmem hy
      · intro x hx
        rcases List.mem_append.mp hx with h1 | h2
        · exact hinv2.2.2.1 x h1
        · rw [List.mem_singleton.mp h2]
          exact List.mem_of_find?_eq_some hfind
      · show respectsDeps reg (st2.sorted ++ [m])
        refine respectsDeps_push reg st2.sorted m hinv2.2.2.2 ?_
        intro d hd hreg2
        have hany : reg.any (fun mm => mm.name = d) = true := (anyName_iff reg d).mpr hreg2
        have hdv : d ∈ st2.visited := hdepvis d hd hany
        rw [hinv2.1] at hdv
        exact hdv

theorem nodup_subset_length_le (l la : List String) (hnd : l.Nodup)
    (hsub : ∀ x ∈ l, x ∈ la) : l.length ≤ la.length := by
  calc l.length = l.toFinset.card := (List.toFinset_card_of_nodup hnd).symm
    _ ≤ la.toFinset.card := Finset.card_le_card
        (fun x hx => List.mem_toFinset.mpr (hsub x (List.mem_toFinset.mp hx)))
    _ ≤ la.length := la.toFinset_card_le

theorem visitDeps_error_circular_of (reg : List ModuleDef) (fuel : Nat)
    (visitF : String → SortState → Except SortError SortState)
    (hvv : ∀ n st st', visitF n st = Except.ok st' → st'.visiting = st.visiting)
    (hv : ∀ n st e, st.visiting.Nodup →
      (∀ x ∈ st.visiting, x ∈ reg.map (fun m => m.name)) →
      n ∈ reg.map (fun m => m.name) →
      reg.length + 1 ≤ fuel + st.visiting.length →
      visitF n st = Except.error e → ∃ p, e = SortError.circular p) :
    ∀ ds st e, st.visiting.Nodup →
      (∀ x ∈ st.visiting, x ∈ reg.map (fun m => m.name)) →
      reg.length + 1 ≤ fuel + st.visiting.length →
      visitDeps reg visitF ds st = Except.error e →
      ∃ p, e = SortError.circular p := by
  intro ds
  induction ds with
  | nil =>
    intro st e _ _ _ h
    rw [visitDeps] at h
    simp at h
  | cons d ds ihds =>
    intro st e hnd hsub harith h
    rcases visitDeps_cons_error_inversion reg visitF d ds st e h with
      ⟨hreg, herr⟩ | ⟨hreg, stx, hok, herr⟩ | ⟨hreg, herr⟩
    · have hdname : d ∈ reg.map (fun m => m.name) := by
        obtain ⟨mm, hmm, hname⟩ := (anyName_iff reg d).mp hreg
        exact List.mem_map.mpr ⟨mm, hmm, hname⟩
      exact hv d st e hnd hsub hdname harith herr
    · have hvis : stx.visiting = st.visiting := hvv d st stx hok
      exact ihds stx e (by rw [hvis]; exact hnd) (by rw [hvis]; exact hsub)
        (by rw [hvis]; exact harith) herr
    · exact ihds st e hnd hsub harith herr

theorem visit_error_circular (reg : List ModuleDef) :
    ∀ fuel n st e, st.visiting.Nodup →
      (∀ x ∈ st.visiting, x ∈ reg.map (fun m => m.name)) →
      n ∈ reg.map (fun m => m.name) →
      reg.length + 1 ≤ fuel + st.visiting.length →
      visit reg fuel n st = Except.error e → ∃ p, e = SortError.circular p := by
  intro fuel
  induction fuel with
  | zero =>
    intro n st e hnd hsub hn harith h
    exfalso
    have hle : st.visiting.length ≤ (reg.map (fun m => m.name)).length :=
      nodup_subset_length_le st.visiting _ hnd hsub
    rw [List.length_map] at hle
    omega
  | succ fuel ih =>
    intro n st e hnd hsub hn harith h
    obtain ⟨hvd, hcase⟩ := visit_succ_error_inversion reg fuel n st e h
    rcases hcase with ⟨hvg, hcirc⟩ | ⟨hvg, hfind, hnf⟩ | ⟨hvg, m, hfind, hdeps⟩
    · exact ⟨st.visiting ++ [n], hcirc⟩
    · exfalso
      obtain ⟨mm, hmm, hname⟩ := List.mem_map.mp hn
      have hnone := List.find?_eq_none.mp hfind mm hmm
      simp [hname] at hnone
    · have hndx : (st.visiting ++ [n]).Nodup := by
        rw [List.nodup_append]
        exact ⟨hnd, List.nodup_singleton n,
          fun y hy hmem2 => hvg (by rwa [List.mem_singleton.mp hmem2] at hy)⟩
      have hsubx : ∀ x ∈ st.visiting ++ [n], x ∈ reg.map (fun m => m.name) := by
        intro x hx
        rcases List.mem_append.mp hx with h1 | h2
        · exact hsub x h1
        · rw [List.mem_singleton.mp h2]
          exact hn
      have harithx : reg.length + 1 ≤ fuel + (st.visiting ++ [n]).length := by
        rw [List.length_append, List.length_singleton]
        omega
      exact visitDeps_error_circular_of reg fuel (visit reg fuel)
        (visit_visiting reg fuel)
        (fun n2 st2 e2 a b c dd ee => ih n2 st2 e2 a b c dd ee)
        m.dependencies { st with visiting := st.visiting ++ [n] } e
        hndx hsubx harithx hdeps

theorem visitAll_ok_props (reg : List ModuleDef) :
    ∀ ms st st', visitAll reg ms st = Except.ok st' →
      st.visiting = [] →
      (SortInvariant reg st → SortInvariant reg st') ∧
      st'.visiting = [] ∧
      (∀ x ∈ st.visited, x ∈ st'.visited) ∧
      (∀ m ∈ ms, m.name ∈ st'.visited) := by
  intro ms
  induction ms with
  | nil =>
    intro st st' h hv
    rw [visitAll] at h
    cases h
    exact ⟨fun hi => hi, hv, fun x hx => hx,
      fun m hm => absurd hm (List.not_mem_nil m)⟩
  | cons m ms ihms =>
    intro st st' h hv
    rw [visitAll] at h
    split_ifs at h with hmem
    · have hrest := ihms st st' h hv
      refine ⟨hrest.1, hrest.2.1, hrest.2.2.1, ?_⟩
      intro m2 hm2
      rcases List.mem_cons.mp hm2 with heq | hmm
      · rw [heq]
        exact hrest.2.2.1 m.name hmem
      · exact hrest.2.2.2 m2 hmm
    · cases hvst : visit reg (reg.length + 1) m.name st with
      | error e =>
        rw [hvst] at h
        simp at h
      | ok stx =>
        rw [hvst] at h
        dsimp only at h
        have hvisx : stx.visiting = [] := by
          rw [visit_visiting reg _ m.name st stx hvst, hv]
        have hrest := ihms stx st' h hvisx
        have hbx := visit_visited reg _ m.name st stx hvst
        refine ⟨?_, hrest.2.1, ?_, ?_⟩
        · intro hi
          exact hrest.1 (visit_inv reg _ m.name st stx hvst hi)
        · intro x hx
          exact hrest.2.2.1 x (hbx.1 x hx)
        · intro m2 hm2
          rcases List.mem_cons.mp hm2 with heq | hmm
          · rw [heq]
            exact hrest.2.2.1 m.name hbx.2.1
          · exact hrest.2.2.2 m2 hmm

theorem visitAll_error_circular (reg : List ModuleDef) :
    ∀ ms st e, st.visiting = [] → (∀ m ∈ ms, m ∈ reg) →
      visitAll reg ms st = Except.error e → ∃ p, e = SortError.circular p := by
  intro ms
  induction ms with
  | nil =>
    intro st e _ _ h
    rw [visitAll] at h
    simp at h
  | cons m ms ihms =>
    intro st e hv hmem h
    rw [visitAll] at h
    split_ifs at h with hvisited
    · exact ihms st e hv (fun x hx => hmem x (List.mem_cons_of_mem m hx)) h
    · cases hvst : visit reg (reg.length + 1) m.name st with
      | error e2 =>
        rw [hvst] at h
        dsimp only at h
        cases h
        refine visit_error_circular reg (reg.length + 1) m.name st e ?_ ?_ ?_ ?_ hvst
        · rw [hv]
          exact List.nodup_nil
        · rw [hv]
          intro x hx
          exact absurd hx (List.not_mem_nil x)
        · exact List.mem_map.mpr ⟨m, hmem m (List.mem_cons_self m ms), rfl⟩
        · rw [hv]
          simp
      | ok stx =>
        rw [hvst] at h
        dsimp only at h
        have hvisx : stx.visiting = [] := by
          rw [visit_visiting reg _ m.name st stx hvst, hv]
        exact ihms stx e hvisx (fun x hx => hmem x (List.mem_cons_of_mem m hx)) h

theorem mem_insertByPriority (m x : ModuleDef) (l : List ModuleDef) :
    x ∈ insertByPriority m l ↔ x = m ∨ x ∈ l := by
  induction l with
  | nil => simp [insertByPriority]
  | cons y ys ih =>
    rw [insertByPriority]
    split_ifs with hp
    · simp
    · simp only [List.mem_cons, ih]
      tauto

theorem mem_modulesByPriority (reg : List ModuleDef) (m : ModuleDef) :
    m ∈ modulesByPriority reg ↔ m ∈ reg := by
  induction reg with
  | nil => simp [modulesByPriority]
  | cons x xs ih =>
    rw [modulesByPriority, mem_insertByPriority]
    simp only [List.mem_cons, ih]

theorem sorted_output_props (reg : List ModuleDef) (l : List ModuleDef)
    (h : sortModulesByDependencies reg = Except.ok l) :
    respectsDeps reg l ∧ (l.map (fun m => m.name)).Nodup ∧
    (∀ m ∈ l, m ∈ reg) ∧ (∀ m ∈ reg, m.name ∈ l.map (fun m => m.name)) := by
  rw [sortModulesByDependencies] at h
  cases hall : visitAll reg (modulesByPriority reg) ⟨[], [], []⟩ with
  | error e =>
    rw [hall] at h
    simp at h
  | ok st =>
    rw [hall] at h
    dsimp only at h
    cases h
    have hprops := visitAll_ok_props reg (modulesByPriority reg) ⟨[], [], []⟩ st hall rfl
    have hinv : SortInvariant reg st := hprops.1
      ⟨rfl, List.nodup_nil, fun m hm => absurd hm (List.not_mem_nil m),
        fun pre m post hsplit => by simp at hsplit⟩
    have hcompl : ∀ m ∈ reg, m.name ∈ st.visited := by
      intro m hm
      exact hprops.2.2.2 m ((mem_modulesByPriority reg m).mpr hm)
    refine ⟨hinv.2.2.2, ?_, hinv.2.2.1, ?_⟩
    · rw [← hinv.1]
      exact hinv.2.1
    · intro m hm
      rw [← hinv.1]
      exact hcompl m hm

theorem chain_lt (f : String → Nat) (E : String → String → Prop)
    (hmono : ∀ a b, E a b → f b < f a) :
    ∀ (rest : List String) (a t : String),
      List.Chain E a rest → rest.getLast? = some t → f t < f a := by
  intro rest
  induction rest with
  | nil =>
    intro a t _ hlast
    simp at hlast
  | cons b bs ih =>
    intro a t hch hlast
    cases hch with
    | cons hab hch2 =>
      cases bs with
      | nil =>
        simp at hlast
        rw [← hlast]
        exact hmono a b hab
      | cons c cs =>
        have hlast2 : (c :: cs).getLast? = some t := by
          simpa using hlast
        exact lt_trans (ih b t hch2 hlast2) (hmono a b hab)

theorem depEdge_indexOf_lt (reg l : List ModuleDef)
    (hregnd : (reg.map (fun m => m.name)).Nodup)
    (hresp : respectsDeps reg l) (hnodup : (l.map (fun m => m.name)).Nodup)
    (hmem : ∀ m ∈ l, m ∈ reg)
    (hcompl : ∀ m ∈ reg, m.name ∈ l.map (fun m => m.name))
    (a b : String) (hedge : depEdge reg a b) :
    (l.map (fun m => m.name)).indexOf b < (l.map (fun m => m.name)).indexOf a := by
  obtain ⟨mp, hmpreg, hmpname, hbdep, mb, hmbreg, hmbname⟩ := hedge
  have ha : a ∈ l.map (fun m => m.name) := by
    rw [← hmpname]
    exact hcompl mp hmpreg
  obtain ⟨ma, hmal, hmaname⟩ := List.mem_map.mp ha
  obtain ⟨pre, post, hsplit⟩ := List.append_of_mem hmal
  have hmaeq : ma = mp := by
    refine List.inj_on_of_nodup_map hregnd (hmem ma hmal) hmpreg ?_
    rw [hmaname, hmpname]
  have hb : b ∈ ma.dependencies := by
    rw [hmaeq]
    exact hbdep
  have hbpre : b ∈ pre.map (fun m => m.name) :=
    hresp pre ma post hsplit b hb ⟨mb, hmbreg, hmbname⟩
  have hnames : l.map (fun m => m.name)
      = pre.map (fun m => m.name) ++ a :: post.map (fun m => m.name) := by
    rw [hsplit]
    simp [hmaname]
  rw [hnames] at hnodup ⊢
  have hanot : a ∉ pre.map (fun m => m.name) := by
    have hd := List.nodup_append.mp hnodup
    intro hc
    exact hd.2.2 hc (List.mem_cons_self a _)
  rw [List.indexOf_append_of_mem hbpre,
    List.indexOf_append_of_not_mem hanot, List.indexOf_cons_self]
  have hblt := List.indexOf_lt_length.mpr hbpre
  omega

/-- C1: whenever `sortModulesByDependencies` succeeds, every registered
dependency of a module occurs strictly before it in the produced order
(`respectsDeps`); `initializeModules` and `startModules` process exactly
that order and `stopModules` its reverse; and on the spec's scenario
`A{deps:[B,C]}, B{deps:[C]}, C{}` the start order is `C, B, A` and the
stop order `A, B, C`. -/
theorem topological_order :
    (∀ (reg l : List ModuleDef),
      sortModulesByDependencies reg = Except.ok l → respectsDeps reg l) ∧
    (∀ (reg l : List ModuleDef),
      sortModulesByDependencies reg = Except.ok l →
      initializeOrder false reg = Except.ok (l.map (fun m => m.name)) ∧
      startOrder reg = Except.ok (l.map (fun m => m.name)) ∧
      stopOrder reg = Except.ok ((l.map (fun m => m.name)).reverse)) ∧
    (startOrder [⟨"A", ["B", "C"], 50, false⟩, ⟨"B", ["C"], 50, false⟩,
        ⟨"C", [], 50, false⟩] = Except.ok ["C", "B", "A"]) ∧
    (initializeOrder false [⟨"A", ["B", "C"], 50, false⟩, ⟨"B", ["C"], 50, false⟩,
        ⟨"C", [], 50, false⟩] = Except.ok ["C", "B", "A"]) ∧
    (stopOrder [⟨"A", ["B", "C"], 50, false⟩, ⟨"B", ["C"], 50, false⟩,
        ⟨"C", [], 50, false⟩] = Except.ok ["A", "B", "C"]) := by
  refine ⟨?_, ?_, by rfl, by rfl, by rfl⟩
  · intro reg l h
    exact (sorted_output_props reg l h).1
  · intro reg l h
    refine ⟨?_, ?_, ?_⟩
    · rw [initializeOrder, if_neg (by simp), h]
    · rw [startOrder, h]
    · rw [stopOrder, h]

/-- C2: when the registered dependency graph has a cycle (registry names
are unique, as the Manager's `Map` keys guarantee), the sort throws a
circular-dependency error whose message is `"Circular dependency detected:
"` followed by the `" -> "`-joined cycle path, and `initializeModules`
(which calls the sort outside any catch) propagates it; on the scenario
`A{deps:[B]}, B{deps:[A]}` the message names both modules. -/
theorem cycle_detection :
    (∀ reg : List ModuleDef, (reg.map (fun m => m.name)).Nodup → hasDepCycle reg →
      ∃ path, sortModulesByDependencies reg = Except.error (SortError.circular path) ∧
        initializeOrder false reg = Except.error (SortError.circular path) ∧
        (SortError.circular path).message
          = "Circular dependency detected: " ++ String.intercalate " -> " path) ∧
    (initializeOrder false [⟨"A", ["B"], 50, false⟩, ⟨"B", ["A"], 50, false⟩]
      = Except.error (SortError.circular ["A", "B", "A"])) ∧
    ((SortError.circular ["A", "B", "A"]).message
      = "Circular dependency detected: A -> B -> A") := by
  refine ⟨?_, by rfl, by rfl⟩
  intro reg hregnd hcyc
  cases hall : visitAll reg (modulesByPriority reg) ⟨[], [], []⟩ with
  | error e =>
    obtain ⟨p, hp⟩ := visitAll_error_circular reg (modulesByPriority reg) ⟨[], [], []⟩ e
      rfl (fun m hm => (mem_modulesByPriority reg m).mp hm) hall
    refine ⟨p, ?_, ?_, rfl⟩
    · rw [sortModulesByDependencies, hall, hp]
    · rw [initializeOrder, if_neg (by simp), sortModulesByDependencies, hall, hp]
  | ok st =>
    exfalso
    have hsort : sortModulesByDependencies reg = Except.ok st.sorted := by
      rw [sortModulesByDependencies, hall]
    obtain ⟨hresp, hnodup, hmem, hcompl⟩ := sorted_output_props reg st.sorted hsort
    obtain ⟨a, rest, hne, hchain, hlast⟩ := hcyc
    have hmono : ∀ x y, depEdge reg x y →
        (st.sorted.map (fun m => m.name)).indexOf y <
          (st.sorted.map (fun m => m.name)).indexOf x :=
      fun x y hxy =>
        depEdge_indexOf_lt reg st.sorted hregnd hresp hnodup hmem hcompl x y hxy
    have hlt := chain_lt (fun x => (st.sorted.map (fun m => m.name)).indexOf x)
      (depEdge reg) hmono rest a a hchain hlast
    omega

end Sprut
